import Mathlib

/-!
# Verification of the bzr-fastimport cache manager, marks codec and info pass

Shallow embedding of `cache_manager.py`, `marks_file.py` and
`processors/info_processor.py`.  Python dictionaries are modelled as
association lists with unique keys (insertion order preserved, updates in
place, fresh keys appended — the behaviour observable through the code).
Python exceptions are modelled with an explicit error type.
-/

inductive PyError where
  | keyError
  | nameError
  | indexError
  | ioError
  | valueError
  | osError
deriving DecidableEq, Repr

deriving instance DecidableEq for Except

/-! ## Association-list model of Python dict -/

def dlookup {κ α : Type} [DecidableEq κ] (k : κ) : List (κ × α) → Option α
  | [] => none
  | (k', v) :: rest => if k' = k then some v else dlookup k rest

def dinsert {κ α : Type} [DecidableEq κ] (k : κ) (v : α) : List (κ × α) → List (κ × α)
  | [] => [(k, v)]
  | (k', v') :: rest => if k' = k then (k, v) :: rest else (k', v') :: dinsert k v rest

def derase {κ α : Type} [DecidableEq κ] (k : κ) : List (κ × α) → List (κ × α)
  | [] => []
  | p :: rest => if p.1 = k then derase k rest else p :: derase k rest

def dkeys {κ α : Type} (d : List (κ × α)) : List κ := d.map Prod.fst

/-! ## Cache manager state (`CacheManager.__init__`)

`blobs` is the transient map, `sticky_blobs` the in-memory sticky map,
`disk_blobs` maps an id to `(offset, n_bytes, fname)` where `fname = none`
means the blob lives in the shared small-blobs file.  The filesystem view of
the temporary directory is part of the state: `small_file` is the content of
the shared small-blobs file and `files` maps a temp-file name (modelled as a
number handed out by `next_fname`) to its content.  Blob payloads are byte
lists. -/

abbrev Data := List Nat

structure CMState where
  blobs : List (Nat × Data)
  sticky_blobs : List (Nat × Data)
  sticky_memory_bytes : Int
  disk_blobs : List (Nat × Nat × Nat × Option Nat)
  blob_ref_counts : List (Nat × Int)
  tempdir : Bool
  small_file : Data
  files : List (Nat × Data)
  next_fname : Nat
deriving DecidableEq, Repr

def small_blob_threshold : Nat := 75 * 1024

def sticky_cache_size : Int := 300 * 1024 * 1024

def sticky_flushed_size : Int := 100 * 1024 * 1024

/-- `CacheManager.__init__`, seeded with the already-parsed blob
reference-count hints (the `'Blob reference counts'` section of an info
file, or `[]` when no hints are available). -/
def initState (rc : List (Nat × Int)) : CMState :=
  { blobs := []
    sticky_blobs := []
    sticky_memory_bytes := 0
    disk_blobs := []
    blob_ref_counts := rc
    tempdir := false
    small_file := []
    files := []
    next_fname := 0 }

/-- Stable ascending insertion by payload size: the model of
`blobs.sort(key=lambda k: len(sticky_blobs[k]))`. -/
def insertBySize (p : Nat × Data) : List (Nat × Data) → List (Nat × Data)
  | [] => [p]
  | q :: rest =>
    if p.2.length ≤ q.2.length then p :: q :: rest else q :: insertBySize p rest

def sortBySize : List (Nat × Data) → List (Nat × Data)
  | [] => []
  | p :: rest => insertBySize p (sortBySize rest)

/-- One iteration of the flush loop body: pop the blob from the sticky map,
subtract its size from the memory counter and write it to disk — appended to
the shared small file and recorded by `(offset, n_bytes)` when below the
small-blob threshold, otherwise into a fresh temporary file of its own. -/
def evictOne (i : Nat) (blob : Data) (st : CMState) : CMState :=
  let n := blob.length
  let st1 := { st with sticky_blobs := derase i st.sticky_blobs
                       sticky_memory_bytes := st.sticky_memory_bytes - (n : Int) }
  if n < small_blob_threshold then
    { st1 with disk_blobs := dinsert i (st1.small_file.length, n, none) st1.disk_blobs
               small_file := st1.small_file ++ blob }
  else
    { st1 with disk_blobs := dinsert i (0, n, some st1.next_fname) st1.disk_blobs
               files := dinsert st1.next_fname blob st1.files
               next_fname := st1.next_fname + 1 }

/-- The `while self._sticky_memory_bytes > self._sticky_flushed_size` loop of
`_flush_blobs_to_disk`.  The list is the sorted key snapshot consumed from
the front (the source sorts ascending and pops from the end; we pass it the
reversed sorted list).  Popping from an exhausted list raises `IndexError`
exactly as Python's `list.pop` would. -/
def flushLoop : List (Nat × Data) → CMState → Except PyError CMState
  | [], st =>
    if st.sticky_memory_bytes > sticky_flushed_size then .error .indexError else .ok st
  | (i, blob) :: rest, st =>
    if st.sticky_memory_bytes > sticky_flushed_size then
      flushLoop rest (evictOne i blob st)
    else .ok st

/-- `CacheManager._flush_blobs_to_disk`: snapshot the sticky keys sorted
ascending by size, lazily create the temporary directory and the shared
small-blobs file, then evict from the end of the sorted snapshot while the
memory counter exceeds the low-water mark. -/
def flush_blobs_to_disk (st : CMState) : Except PyError CMState :=
  let sorted := sortBySize st.sticky_blobs
  let st1 := if st.tempdir then st else { st with tempdir := true, small_file := [] }
  flushLoop sorted.reverse st1

/-- `CacheManager.store_blob`. -/
def store_blob (i : Nat) (data : Data) (st : CMState) : Except PyError CMState :=
  if st.blob_ref_counts = [] ∨ (dlookup i st.blob_ref_counts).isSome then
    let st1 := { st with sticky_blobs := dinsert i data st.sticky_blobs
                         sticky_memory_bytes :=
                           st.sticky_memory_bytes + (data.length : Int) }
    if st1.sticky_memory_bytes > sticky_cache_size then flush_blobs_to_disk st1
    else .ok st1
  else if data = [] then
    .ok { st with sticky_blobs := dinsert i data st.sticky_blobs }
  else
    .ok { st with blobs := dinsert i data st.blobs }

/-- Which cache dictionary `_decref` was handed (it receives the dict object
itself in the source). -/
inductive Tier where
  | disk
  | sticky
deriving DecidableEq, Repr

/-- `CacheManager._decref`: returns whether the entry was evicted, together
with the updated state.  When the count reaches zero the entry is deleted
from the given cache, its backing file (if any) is unlinked and the
reference-count entry is dropped. -/
def decref (i : Nat) (cache : Tier) (fn : Option Nat) (st : CMState) : Bool × CMState :=
  if st.blob_ref_counts = [] then (false, st)
  else
    match dlookup i st.blob_ref_counts with
    | none => (false, st)
    | some count =>
      let count' := count - 1
      if count' ≤ 0 then
        let st1 :=
          match cache with
          | .disk => { st with disk_blobs := derase i st.disk_blobs }
          | .sticky => { st with sticky_blobs := derase i st.sticky_blobs }
        let st2 :=
          match fn with
          | none => st1
          | some f => { st1 with files := derase f st1.files }
        (true, { st2 with blob_ref_counts := derase i st2.blob_ref_counts })
      else
        (false, { st with blob_ref_counts := dinsert i count' st.blob_ref_counts })

/-- Reading the bytes of a disk-tier entry: a `(offset, n_bytes)` slice of
the shared small file, or the whole content of the named temporary file
(opening a missing file raises `IOError`). -/
def diskFetchContent (off n : Nat) (fn : Option Nat) (st : CMState) : Except PyError Data :=
  match fn with
  | none => .ok ((st.small_file.drop off).take n)
  | some f =>
    match dlookup f st.files with
    | some c => .ok c
    | none => .error .ioError

/-- `CacheManager.fetch_blob`: transient map first (popped without
reference counting), then the disk tier, then the sticky map; a miss in all
three raises `KeyError`. -/
def fetch_blob (i : Nat) (st : CMState) : Except PyError (Data × CMState) :=
  match dlookup i st.blobs with
  | some data => .ok (data, { st with blobs := derase i st.blobs })
  | none =>
    match dlookup i st.disk_blobs with
    | some (off, n, fn) =>
      match diskFetchContent off n fn st with
      | .error e => .error e
      | .ok content =>
        let r := decref i Tier.disk fn st
        .ok (content, r.2)
    | none =>
      match dlookup i st.sticky_blobs with
      | none => .error .keyError
      | some content =>
        let r := decref i Tier.sticky none st
        let st2 :=
          if r.1 then
            { r.2 with sticky_memory_bytes :=
                         r.2.sticky_memory_bytes - (content.length : Int) }
          else r.2
        .ok (content, st2)

/-- `fetch_blob` iterated: the results of `k` successive fetches of the same
id, threading the state. -/
def fetchN (i : Nat) : Nat → CMState → Except PyError (List Data × CMState)
  | 0, st => .ok ([], st)
  | k + 1, st =>
    match fetch_blob i st with
    | .error e => .error e
    | .ok (d, st') =>
      match fetchN i k st' with
      | .error e => .error e
      | .ok (ds, st'') => .ok (d :: ds, st'')

/-- The unlink loop of `_Cleanup.finalize`: delete the backing file of every
disk-tier entry that has one; unlinking a missing file raises `OSError`. -/
def unlinkLoop : List (Nat × Nat × Nat × Option Nat) → CMState → CMState × Option PyError
  | [], st => (st, none)
  | (_, _, _, none) :: rest, st => unlinkLoop rest st
  | (_, _, _, some f) :: rest, st =>
    if (dlookup f st.files).isSome then
      unlinkLoop rest { st with files := derase f st.files }
    else (st, some .osError)

/-- `_Cleanup.finalize`: unlink the individual spill files, drop the
`disk_blobs` reference, close (and thereby delete) the shared small-blobs
temporary file, then attempt to remove the temporary directory.  The source
spells the module `shutils` — a name that does not exist (the import is
`shutil`) — so whenever a temporary directory was created this last step
raises `NameError` and the directory is left behind. -/
def finalize (st : CMState) : CMState × Option PyError :=
  match unlinkLoop st.disk_blobs st with
  | (st1, some e) => (st1, some e)
  | (st1, none) =>
    let st2 := { st1 with disk_blobs := [] }
    let st3 := if st2.tempdir then { st2 with small_file := [] } else st2
    if st3.tempdir then (st3, some PyError.nameError) else (st3, none)

/-! ## Reachable cache-manager states

`Reach` closes the constructor state under successful `store_blob`,
`fetch_blob` and `_flush_blobs_to_disk` calls.  `ReachFresh` is the same
relation restricted to stores whose id is not currently held in any tier
(the discipline a well-formed stream obeys: a mark is only reassigned after
the previous object was fully consumed). -/

def idFresh (i : Nat) (st : CMState) : Prop :=
  dlookup i st.blobs = none ∧ dlookup i st.sticky_blobs = none ∧
    dlookup i st.disk_blobs = none

instance (i : Nat) (st : CMState) : Decidable (idFresh i st) := by
  unfold idFresh; infer_instance

inductive Reach (rc : List (Nat × Int)) : CMState → Prop where
  | init : Reach rc (initState rc)
  | store {st st' : CMState} {i : Nat} {d : Data} :
      Reach rc st → store_blob i d st = .ok st' → Reach rc st'
  | fetch {st st' : CMState} {i : Nat} {d : Data} :
      Reach rc st → fetch_blob i st = .ok (d, st') → Reach rc st'
  | flush {st st' : CMState} :
      Reach rc st → flush_blobs_to_disk st = .ok st' → Reach rc st'

inductive ReachFresh (rc : List (Nat × Int)) : CMState → Prop where
  | init : ReachFresh rc (initState rc)
  | store {st st' : CMState} {i : Nat} {d : Data} :
      ReachFresh rc st → idFresh i st → store_blob i d st = .ok st' →
      ReachFresh rc st'
  | fetch {st st' : CMState} {i : Nat} {d : Data} :
      ReachFresh rc st → fetch_blob i st = .ok (d, st') → ReachFresh rc st'
  | flush {st st' : CMState} :
      ReachFresh rc st → flush_blobs_to_disk st = .ok st' → ReachFresh rc st'

/-! ## Head tracking (`track_heads` / `track_heads_for_ref`)

Refs and commit ids are names; the head set maps a commit id to the set of
refs (a duplicate-free list) for which it is the current tip. -/

structure HeadsState where
  last_ref : Option Nat
  last_ids : List (Nat × Nat)
  heads : List (Nat × List Nat)
deriving DecidableEq, Repr

def initHeads : HeadsState :=
  { last_ref := none, last_ids := [], heads := [] }

structure CommitCmd where
  ref : Nat
  id : Nat
  from_ : Option Nat
  merges : List Nat
deriving DecidableEq, Repr

def setAdd (x : Nat) (s : List Nat) : List Nat :=
  if x ∈ s then s else s ++ [x]

/-- `CacheManager.track_heads_for_ref`. -/
def track_heads_for_ref (cmd_ref cmd_id : Nat) (parents : Option (List Nat))
    (st : HeadsState) : HeadsState :=
  let st1 :=
    match parents with
    | none => st
    | some ps => { st with heads := ps.foldl (fun h p => derase p h) st.heads }
  let cur := (dlookup cmd_id st1.heads).getD []
  { st1 with heads := dinsert cmd_id (setAdd cmd_ref cur) st1.heads
             last_ids := dinsert cmd_ref cmd_id st1.last_ids
             last_ref := some cmd_ref }

/-- `CacheManager.track_heads`. -/
def track_heads (cmd : CommitCmd) (st : HeadsState) : List Nat × HeadsState :=
  let parents :=
    match cmd.from_ with
    | some f => [f]
    | none =>
      match dlookup cmd.ref st.last_ids with
      | some last_id => [last_id]
      | none => []
  let parents := parents ++ cmd.merges
  (parents, track_heads_for_ref cmd.ref cmd.id (some parents) st)

/-! ## Marks codec (`marks_file.py`)

A marks file is a flat character list; a marks mapping is a dict from mark
to identifier, both character lists.  A missing/unreadable input file and an
unwritable output file are modelled by `none` / `writable = false`; the
codec reports warnings instead of raising in exactly those cases. -/

abbrev MStr := List Char

inductive MarksWarning where
  | importFailed
  | exportFailed
deriving DecidableEq, Repr

/-- Python file iteration: split a file into its lines, each keeping its
trailing newline (a final unterminated line is yielded as-is). -/
def splitLinesAux : MStr → MStr → List MStr
  | [], acc => if acc = [] then [] else [acc.reverse]
  | c :: rest, acc =>
    if c = '\n' then (acc.reverse ++ ['\n']) :: splitLinesAux rest []
    else splitLinesAux rest (c :: acc)

def splitLines (s : MStr) : List MStr := splitLinesAux s []

/-- `line.rstrip('\n')`. -/
def rstripNl (l : MStr) : MStr :=
  (l.reverse.dropWhile (fun c => c = '\n')).reverse

/-- `line.split(' ', 1)`: the part before the first space, and the rest if a
space exists. -/
def splitFirstSpaceAux : MStr → MStr → MStr × Option MStr
  | [], acc => (acc.reverse, none)
  | c :: rest, acc =>
    if c = ' ' then (acc.reverse, some rest) else splitFirstSpaceAux rest (c :: acc)

def splitFirstSpace (l : MStr) : MStr × Option MStr :=
  splitFirstSpaceAux l []

/-- One line of `import_marks`: strip trailing newlines, split at the first
space (unpacking fails with `ValueError` when there is none), strip one
leading colon from the mark. -/
def parseMarksLine (line : MStr) : Except PyError (MStr × MStr) :=
  match splitFirstSpace (rstripNl line) with
  | (_, none) => .error .valueError
  | (mark, some revid) =>
    let mark' := match mark with
                 | ':' :: rest => rest
                 | _ => mark
    .ok (mark', revid)

def parseMarksLines : List MStr → List (MStr × MStr) →
    Except PyError (List (MStr × MStr))
  | [], acc => .ok acc
  | line :: rest, acc =>
    match parseMarksLine line with
    | .error e => .error e
    | .ok (m, r) => parseMarksLines rest (dinsert m r acc)

/-- `import_marks`: a file that cannot be opened degrades to "no prior
marks" with a warning; otherwise the lines are parsed into the mark →
identifier dictionary. -/
def import_marks (file : Option MStr) :
    Except PyError (Option (List (MStr × MStr)) × List MarksWarning) :=
  match file with
  | none => .ok (none, [MarksWarning.importFailed])
  | some content =>
    match parseMarksLines (splitLines content) [] with
    | .error e => .error e
    | .ok m => .ok (some m, [])

/-- One exported line: `':%s %s\n' % (mark, revid)`. -/
def renderMarksLine (p : MStr × MStr) : MStr :=
  ':' :: p.1 ++ ' ' :: p.2 ++ ['\n']

/-- `export_marks`: an unwritable destination degrades to "marks not saved"
with a warning; otherwise each mapping is written on its own line. -/
def export_marks (writable : Bool) (m : List (MStr × MStr)) :
    Option MStr × List MarksWarning :=
  if writable then (some (m.map renderMarksLine).flatten, [])
  else (none, [MarksWarning.exportFailed])

/-! ## Informational pass (`InfoProcessor`)

Only the blob-usage bookkeeping is relevant here: the `new`/`used`/
`unknown`/`unmarked` sets and the reference-count dictionary.  A mark
stands for the `:mark` id string shared by `BlobCommand.id` and
`FileModifyCommand.dataref`. -/

structure InfoState where
  blob_ref_counts : List (Nat × Nat)
  blobs_new : List Nat
  blobs_used : List Nat
  blobs_unknown : List Nat
  blobs_unmarked : List Nat
deriving DecidableEq, Repr

def initInfo : InfoState :=
  { blob_ref_counts := [], blobs_new := [], blobs_used := []
    blobs_unknown := [], blobs_unmarked := [] }

/-- `InfoProcessor.blob_handler` restricted to its blob bookkeeping: an
unmarked blob records its id in `unmarked`; a marked blob enters `new` and
leaves `used` (marks can be re-used). -/
def blob_handler (mark : Option Nat) (cmd_id : Nat) (st : InfoState) : InfoState :=
  match mark with
  | none => { st with blobs_unmarked := setAdd cmd_id st.blobs_unmarked }
  | some _ =>
    { st with blobs_new := setAdd cmd_id st.blobs_new
              blobs_used := st.blobs_used.filter (fun x => x ≠ cmd_id) }

/-- `InfoProcessor._track_blob`, called once per `Modify` file change whose
dataref is a mark reference. -/
def track_blob (mark : Nat) (st : InfoState) : InfoState :=
  match dlookup mark st.blob_ref_counts with
  | some c =>
    { st with blob_ref_counts := dinsert mark (c + 1) st.blob_ref_counts }
  | none =>
    if mark ∈ st.blobs_used then
      { st with blob_ref_counts := dinsert mark 2 st.blob_ref_counts
                blobs_used := st.blobs_used.filter (fun x => x ≠ mark) }
    else if mark ∈ st.blobs_new then
      { st with blobs_used := setAdd mark st.blobs_used
                blobs_new := st.blobs_new.filter (fun x => x ≠ mark) }
    else
      { st with blobs_unknown := setAdd mark st.blobs_unknown }

/-- `k` successive mark references (`k` Modify file-changes naming the same
mark), in stream order. -/
def trackN (mark : Nat) : Nat → InfoState → InfoState
  | 0, st => st
  | k + 1, st => trackN mark k (track_blob mark st)

/-! ## Invariants and specification-side definitions -/

/-- Total payload size of a blob map, the quantity `_sticky_memory_bytes`
is meant to track. -/
def sumSizes (l : List (Nat × Data)) : Int :=
  (l.map (fun p => (p.2.length : Int))).sum

/-- Every temp-file name on record was handed out by `next_fname`. -/
def filesBound (st : CMState) : Prop :=
  ∀ p ∈ st.files, p.1 < st.next_fname

/-- A disk-tier entry correctly records blob payload `b` in state `st`:
either `b` is small and the `(offset, length)` slice of the shared small
file holds exactly `b`, or `b` is at or above the threshold and its own
temporary file holds exactly `b`. -/
def diskEntryOK (b : Data) (e : Nat × Nat × Option Nat) (st : CMState) : Prop :=
  (b.length < small_blob_threshold ∧
    ∃ off, e = (off, b.length, none) ∧ (st.small_file.drop off).take b.length = b) ∨
  (small_blob_threshold ≤ b.length ∧
    ∃ f, e = (0, b.length, some f) ∧ dlookup f st.files = some b)

/-- An all-zero payload of a given size, used for concrete instances whose
sizes must cross the (large) eviction thresholds. -/
def zeros (n : Nat) : Data := List.replicate n 0

/-- The structural invariant of reachable cache-manager states: each map has
unique keys, the memory counter is the total sticky payload size, the three
tiers are pairwise disjoint, and temp-file names are bounded by the
counter. -/
def CMInv (st : CMState) : Prop :=
  (dkeys st.blobs).Nodup ∧ (dkeys st.sticky_blobs).Nodup ∧
  (dkeys st.disk_blobs).Nodup ∧
  st.sticky_memory_bytes = sumSizes st.sticky_blobs ∧
  (∀ i ∈ dkeys st.blobs, i ∉ dkeys st.sticky_blobs) ∧
  (∀ i ∈ dkeys st.blobs, i ∉ dkeys st.disk_blobs) ∧
  (∀ i ∈ dkeys st.sticky_blobs, i ∉ dkeys st.disk_blobs) ∧
  filesBound st

/-- Modelled from the claim under test: a flush loop that consumes the
ascending size-sorted snapshot from the front, i.e. evicts blobs
smallest-first.  This is the eviction order the claim asserts; it exists
only to be compared against `flushLoop`, which consumes the snapshot from
the end. -/
def flushLoopClaim : List (Nat × Data) → CMState → Except PyError CMState
  | [], st =>
    if st.sticky_memory_bytes > sticky_flushed_size then .error .indexError else .ok st
  | (i, blob) :: rest, st =>
    if st.sticky_memory_bytes > sticky_flushed_size then
      flushLoopClaim rest (evictOne i blob st)
    else .ok st

/-- Modelled from the claim under test: `_flush_blobs_to_disk` as the claim
describes it, evicting smallest-first. -/
def flush_smallest_first (st : CMState) : Except PyError CMState :=
  let sorted := sortBySize st.sticky_blobs
  let st1 := if st.tempdir then st else { st with tempdir := true, small_file := [] }
  flushLoopClaim sorted st1

/-- Modelled from the claim under test: `store_blob` with the claimed
smallest-first flush pass. -/
def store_blob_claim (i : Nat) (data : Data) (st : CMState) : Except PyError CMState :=
  if st.blob_ref_counts = [] ∨ (dlookup i st.blob_ref_counts).isSome then
    let st1 := { st with sticky_blobs := dinsert i data st.sticky_blobs
                         sticky_memory_bytes :=
                           st.sticky_memory_bytes + (data.length : Int) }
    if st1.sticky_memory_bytes > sticky_cache_size then flush_smallest_first st1
    else .ok st1
  else if data = [] then
    .ok { st with sticky_blobs := dinsert i data st.sticky_blobs }
  else
    .ok { st with blobs := dinsert i data st.blobs }

/-! ## Dictionary lemmas -/

theorem derase_eq_filter {κ α : Type} [DecidableEq κ] (k : κ) (d : List (κ × α)) :
    derase k d = d.filter (fun p => p.1 ≠ k) := by
  induction d with
  | nil => rfl
  | cons p rest ih =>
    by_cases h : p.1 = k
    · simp [derase, h, ih]
    · simp [derase, h, ih]

theorem dlookup_dinsert_self {κ α : Type} [DecidableEq κ] (k : κ) (v : α)
    (d : List (κ × α)) : dlookup k (dinsert k v d) = some v := by
  induction d with
  | nil => simp [dinsert, dlookup]
  | cons p rest ih =>
    by_cases h : p.1 = k
    · simp [dinsert, dlookup, h]
    · simp [dinsert, dlookup, h, ih]

theorem dlookup_dinsert_ne {κ α : Type} [DecidableEq κ] {k j : κ} (v : α)
    (d : List (κ × α)) (h : k ≠ j) :
    dlookup j (dinsert k v d) = dlookup j d := by
  induction d with
  | nil => simp [dinsert, dlookup, h]
  | cons p rest ih =>
    by_cases hp : p.1 = k
    · simp [dinsert, dlookup, hp, h]
    · by_cases hj : p.1 = j
      · have hjk : j ≠ k := Ne.symm h
        simp [dinsert, dlookup, hp, hj, hjk]
      · simp [dinsert, dlookup, hp, hj, ih]

theorem dlookup_derase_self {κ α : Type} [DecidableEq κ] (k : κ)
    (d : List (κ × α)) : dlookup k (derase k d) = none := by
  induction d with
  | nil => rfl
  | cons p rest ih =>
    by_cases h : p.1 = k
    · simp [derase, h, ih]
    · simp [derase, dlookup, h, ih]

theorem dlookup_derase_ne {κ α : Type} [DecidableEq κ] {k j : κ}
    (d : List (κ × α)) (h : j ≠ k) :
    dlookup j (derase k d) = dlookup j d := by
  induction d with
  | nil => rfl
  | cons p rest ih =>
    by_cases hp : p.1 = k
    · have hpj : p.1 ≠ j := by rw [hp]; exact Ne.symm h
      have hkj : ¬(k = j) := fun hh => h hh.symm
      simp [derase, dlookup, hp, hpj, hkj, ih]
    · by_cases hj : p.1 = j
      · simp [derase, dlookup, hp, hj, h]
      · simp [derase, dlookup, hp, hj, ih]

theorem dlookup_none_of_not_mem_dkeys {κ α : Type} [DecidableEq κ] {k : κ}
    {d : List (κ × α)} (h : k ∉ dkeys d) : dlookup k d = none := by
  induction d with
  | nil => rfl
  | cons p rest ih =>
    simp only [dkeys, List.map_cons, List.mem_cons, not_or] at h
    have hp : p.1 ≠ k := fun hh => h.1 hh.symm
    simp only [dlookup, if_neg hp]
    exact ih (by simpa [dkeys] using h.2)

theorem mem_dkeys_of_dlookup {κ α : Type} [DecidableEq κ] {k : κ} {v : α}
    {d : List (κ × α)} (h : dlookup k d = some v) : k ∈ dkeys d := by
  by_contra hmem
  rw [dlookup_none_of_not_mem_dkeys hmem] at h
  exact Option.noConfusion h

theorem dlookup_isSome_iff_mem_dkeys {κ α : Type} [DecidableEq κ] (k : κ)
    (d : List (κ × α)) : (dlookup k d).isSome ↔ k ∈ dkeys d := by
  constructor
  · intro h
    obtain ⟨v, hv⟩ := Option.isSome_iff_exists.mp h
    exact mem_dkeys_of_dlookup hv
  · intro h
    induction d with
    | nil => simp [dkeys] at h
    | cons p rest ih =>
      by_cases hp : p.1 = k
      · simp [dlookup, hp]
      · simp only [dlookup, if_neg hp]
        simp only [dkeys, List.map_cons, List.mem_cons] at h
        exact ih (h.resolve_left (fun hh => hp hh.symm))

theorem derase_dinsert_self {κ α : Type} [DecidableEq κ] (k : κ) (v : α)
    (d : List (κ × α)) : derase k (dinsert k v d) = derase k d := by
  induction d with
  | nil => simp [dinsert, derase]
  | cons p rest ih =>
    by_cases h : p.1 = k
    · simp [dinsert, derase, h]
    · simp [dinsert, derase, h, ih]

theorem dinsert_eq_append {κ α : Type} [DecidableEq κ] {k : κ} (v : α)
    {d : List (κ × α)} (h : k ∉ dkeys d) : dinsert k v d = d ++ [(k, v)] := by
  induction d with
  | nil => rfl
  | cons p rest ih =>
    simp only [dkeys, List.map_cons, List.mem_cons, not_or] at h
    have hp : p.1 ≠ k := fun hh => h.1 hh.symm
    simp only [dinsert, if_neg hp, List.cons_append]
    rw [ih (by simpa [dkeys] using h.2)]

theorem mem_dinsert {κ α : Type} [DecidableEq κ] {k : κ} {v : α} {q : κ × α}
    {d : List (κ × α)} (h : q ∈ dinsert k v d) : q = (k, v) ∨ q ∈ d := by
  induction d with
  | nil => simpa [dinsert] using h
  | cons p rest ih =>
    by_cases hp : p.1 = k
    · simp only [dinsert, if_pos hp, List.mem_cons] at h
      rcases h with h | h
      · exact Or.inl h
      · exact Or.inr (List.mem_cons_of_mem _ h)
    · simp only [dinsert, if_neg hp, List.mem_cons] at h
      rcases h with h | h
      · exact Or.inr (by simp [h])
      · rcases ih h with h' | h'
        · exact Or.inl h'
        · exact Or.inr (List.mem_cons_of_mem _ h')

theorem dkeys_dinsert_of_mem {κ α : Type} [DecidableEq κ] {k : κ} (v : α)
    {d : List (κ × α)} (h : k ∈ dkeys d) :
    dkeys (dinsert k v d) = dkeys d := by
  induction d with
  | nil => simp [dkeys] at h
  | cons p rest ih =>
    by_cases hp : p.1 = k
    · simp [dinsert, hp, dkeys]
    · simp only [dkeys, List.map_cons, List.mem_cons] at h
      have h' : k ∈ dkeys rest := h.resolve_left (fun hh => hp hh.symm)
      have := ih h'
      simp only [dkeys, List.map_cons] at this ⊢
      simp only [dinsert, if_neg hp, List.map_cons, this]

theorem dkeys_dinsert_nodup {κ α : Type} [DecidableEq κ] (k : κ) (v : α)
    {d : List (κ × α)} (h : (dkeys d).Nodup) :
    (dkeys (dinsert k v d)).Nodup := by
  by_cases hm : k ∈ dkeys d
  · rw [dkeys_dinsert_of_mem v hm]; exact h
  · rw [dinsert_eq_append v hm]
    simp only [dkeys, List.map_append, List.map_cons, List.map_nil]
    rw [List.nodup_append]
    refine ⟨h, List.nodup_singleton k, ?_⟩
    intro a ha hb
    simp only [List.mem_singleton] at hb
    exact hm (hb ▸ ha)

theorem dkeys_derase_sublist {κ α : Type} [DecidableEq κ] (k : κ)
    (d : List (κ × α)) : (dkeys (derase k d)).Sublist (dkeys d) := by
  induction d with
  | nil => simp [derase, dkeys]
  | cons p rest ih =>
    by_cases h : p.1 = k
    · simpa [derase, h, dkeys] using ih.cons p.1
    · simpa [derase, h, dkeys] using ih.cons₂ p.1

theorem derase_perm_of_perm {κ α : Type} [DecidableEq κ] {k : κ} {b : α}
    {d rest : List (κ × α)} (hn : (dkeys ((k, b) :: rest)).Nodup)
    (hp : d.Perm ((k, b) :: rest)) : (derase k d).Perm rest := by
  rw [derase_eq_filter]
  have h1 := hp.filter (fun p => decide (p.1 ≠ k))
  have h2 : List.filter (fun p => decide (p.1 ≠ k)) ((k, b) :: rest) = rest := by
    simp only [dkeys, List.map_cons, List.nodup_cons] at hn
    rw [List.filter_cons_of_neg (by simp)]
    apply List.filter_eq_self.mpr
    intro p hpmem
    have hc : p.1 ≠ k := fun hc => hn.1 (hc ▸ List.mem_map_of_mem Prod.fst hpmem)
    simp [hc]
  exact h2 ▸ h1

/-! ## Head-tracking lemmas -/

theorem dlookup_foldl_derase_none {κ α : Type} [DecidableEq κ] {p : κ}
    (ps : List κ) (h0 : List (κ × α)) (h : dlookup p h0 = none) :
    dlookup p (ps.foldl (fun h q => derase q h) h0) = none := by
  induction ps generalizing h0 with
  | nil => exact h
  | cons q qs ih =>
    simp only [List.foldl_cons]
    apply ih
    by_cases hq : p = q
    · rw [hq]; exact dlookup_derase_self q h0
    · rw [dlookup_derase_ne h0 hq]; exact h

theorem dlookup_foldl_derase_of_mem {κ α : Type} [DecidableEq κ] {p : κ}
    {ps : List κ} (h0 : List (κ × α)) (h : p ∈ ps) :
    dlookup p (ps.foldl (fun h q => derase q h) h0) = none := by
  induction ps generalizing h0 with
  | nil => simp at h
  | cons q qs ih =>
    simp only [List.foldl_cons]
    rcases List.mem_cons.mp h with h' | h'
    · apply dlookup_foldl_derase_none
      rw [h']; exact dlookup_derase_self q h0
    · exact ih _ h'

theorem mem_setAdd_self (x : Nat) (s : List Nat) : x ∈ setAdd x s := by
  unfold setAdd
  by_cases h : x ∈ s
  · rw [if_pos h]; exact h
  · rw [if_neg h]; exact List.mem_append_right s (List.mem_singleton.mpr rfl)

/-- C3: `track_heads(cmd)` returns `[cmd.from_]` if `from_` is present, else
the last-seen id for `cmd.ref` if one exists, else `[]`, extended by
`cmd.merges`; every returned parent (other than `cmd.id` itself, which is
re-added) is no longer a head afterwards, and `cmd.id` is a head of
`cmd.ref`; in the concrete scenario — roots C1 (id 10) on ref R1 (1) and C2
(id 20) on ref R2 (2), then C3 (id 30) on R1 with `from_` = C1 and
`merges` = [C2] — the final head set is exactly `{C3 : {R1}}`. -/
theorem track_heads_spec :
    (∀ (cmd : CommitCmd) (st : HeadsState),
      (track_heads cmd st).1 =
        (match cmd.from_ with
         | some f => [f]
         | none =>
           match dlookup cmd.ref st.last_ids with
           | some last_id => [last_id]
           | none => []) ++ cmd.merges) ∧
    (∀ (cmd : CommitCmd) (st : HeadsState) (p : Nat),
      p ∈ (track_heads cmd st).1 → p ≠ cmd.id →
      dlookup p ((track_heads cmd st).2).heads = none) ∧
    (∀ (cmd : CommitCmd) (st : HeadsState),
      cmd.ref ∈ (dlookup cmd.id ((track_heads cmd st).2).heads).getD []) ∧
    (track_heads { ref := 1, id := 30, from_ := some 10, merges := [20] }
        ((track_heads { ref := 2, id := 20, from_ := none, merges := [] }
          ((track_heads { ref := 1, id := 10, from_ := none, merges := [] }
            initHeads).2)).2) =
      ([10, 20],
        { last_ref := some 1, last_ids := [(1, 30), (2, 20)],
          heads := [(30, [1])] })) := by
  refine ⟨fun cmd st => rfl, ?_, ?_, by decide⟩
  · intro cmd st p hp hpid
    simp only [track_heads, track_heads_for_ref]
    rw [dlookup_dinsert_ne _ _ (Ne.symm hpid)]
    exact dlookup_foldl_derase_of_mem _ hp
  · intro cmd st
    simp only [track_heads, track_heads_for_ref]
    rw [dlookup_dinsert_self]
    exact mem_setAdd_self _ _

/-- Witness for C3 at the scenario's final commit. -/
theorem track_heads_spec_witness :
    (10 ∈ (track_heads { ref := 1, id := 30, from_ := some 10, merges := [20] }
            initHeads).1 ∧ 10 ≠ 30) ∧
    dlookup 10 ((track_heads { ref := 1, id := 30, from_ := some 10, merges := [20] }
        initHeads).2).heads = none :=
  ⟨⟨by decide, by decide⟩,
    track_heads_spec.2.1 _ initHeads 10 (by decide) (by decide)⟩

/-! ## Finalize (`_Cleanup`) lemmas -/

theorem unlinkLoop_tempdir (entries : List (Nat × Nat × Nat × Option Nat))
    (st : CMState) : ((unlinkLoop entries st).1).tempdir = st.tempdir := by
  induction entries generalizing st with
  | nil => rfl
  | cons e rest ih =>
    obtain ⟨i, off, n, fn⟩ := e
    cases fn with
    | none => exact ih st
    | some f =>
      simp only [unlinkLoop]
      by_cases h : (dlookup f st.files).isSome
      · rw [if_pos h]; exact ih _
      · rw [if_neg h]

/-- C5: the temporary directory is created lazily (the constructor state has
none), but teardown is broken: for every cache-manager state whose temporary
directory exists (i.e. after any flush-to-disk) and whose individual spill
files unlink cleanly, `finalize` raises `NameError` — the source calls
`shutils.rmtree` though the imported module is `shutil` — and the temporary
directory is left behind. -/
theorem finalize_raises_nameError :
    (∀ rc, (initState rc).tempdir = false) ∧
    (∀ st : CMState, st.tempdir = true →
      (unlinkLoop st.disk_blobs st).2 = none →
      (finalize st).2 = some PyError.nameError ∧
      ((finalize st).1).tempdir = true) := by
  refine ⟨fun rc => rfl, ?_⟩
  intro st htd hu
  have htd1 : ((unlinkLoop st.disk_blobs st).1).tempdir = true := by
    rw [unlinkLoop_tempdir]; exact htd
  rcases hul : unlinkLoop st.disk_blobs st with ⟨st1, e⟩
  rw [hul] at hu htd1
  simp only at hu htd1
  subst hu
  simp [finalize, hul, htd1]

/-- Witness for C5: a state with the temporary directory present (as after
any flush) and no individual spill files. -/
theorem finalize_raises_nameError_witness :
    ({ initState [] with tempdir := true } : CMState).tempdir = true ∧
    (unlinkLoop ({ initState [] with tempdir := true } : CMState).disk_blobs
      { initState [] with tempdir := true }).2 = none ∧
    (finalize { initState [] with tempdir := true }).2 = some PyError.nameError ∧
    ((finalize { initState [] with tempdir := true }).1).tempdir = true := by
  refine ⟨by decide, by decide, ?_⟩
  exact finalize_raises_nameError.2 _ (by decide) (by decide)

/-- C9: `import_marks` on a missing/unreadable file returns the
no-prior-marks result with a warning instead of raising, and `export_marks`
to an unwritable destination returns normally with a warning instead of
raising. -/
theorem marks_io_degrade :
    import_marks none = .ok (none, [MarksWarning.importFailed]) ∧
    ∀ m : List (MStr × MStr),
      export_marks false m = (none, [MarksWarning.exportFailed]) :=
  ⟨rfl, fun _ => rfl⟩

/-! ## Informational-pass lemmas -/

theorem trackN_counts_iter (X : Nat) (j : Nat) :
    ∀ c : Nat,
      trackN X j { blob_ref_counts := [(X, c)], blobs_new := [], blobs_used := []
                   blobs_unknown := [], blobs_unmarked := [] } =
        { blob_ref_counts := [(X, c + j)], blobs_new := [], blobs_used := []
          blobs_unknown := [], blobs_unmarked := [] } := by
  induction j with
  | zero => intro c; rfl
  | succ j ih =>
    intro c
    have hstep :
        track_blob X { blob_ref_counts := [(X, c)], blobs_new := [], blobs_used := []
                       blobs_unknown := [], blobs_unmarked := [] } =
          { blob_ref_counts := [(X, c + 1)], blobs_new := [], blobs_used := []
            blobs_unknown := [], blobs_unmarked := [] } := by
      simp [track_blob, dlookup, dinsert]
    show trackN X j (track_blob X _) = _
    rw [hstep, ih (c + 1)]
    have hn : c + 1 + j = c + (j + 1) := by omega
    rw [hn]

theorem trackN_unknown_fix (X : Nat) (j : Nat) :
    trackN X j { blob_ref_counts := [], blobs_new := [], blobs_used := []
                 blobs_unknown := [X], blobs_unmarked := [] } =
      { blob_ref_counts := [], blobs_new := [], blobs_used := []
        blobs_unknown := [X], blobs_unmarked := [] } := by
  induction j with
  | zero => rfl
  | succ j ih =>
    show trackN X j (track_blob X _) = _
    have : track_blob X { blob_ref_counts := [], blobs_new := [], blobs_used := []
                          blobs_unknown := [X], blobs_unmarked := [] } =
        { blob_ref_counts := [], blobs_new := [], blobs_used := []
          blobs_unknown := [X], blobs_unmarked := [] } := by
      simp [track_blob, dlookup, setAdd]
    rw [this, ih]

/-- C10: in the informational pass, a declared blob mark referenced `k ≥ 2`
times by Modify file-changes ends with reference count `k`; a declared mark
referenced exactly once gets no count entry and sits in the `used` set; and
a referenced mark never declared by a Blob command is placed in the
`unknown` set and never receives a count. -/
theorem blob_ref_count_tracking :
    (∀ (X k : Nat), 2 ≤ k →
      dlookup X (trackN X k (blob_handler (some X) X initInfo)).blob_ref_counts =
          some k ∧
        X ∉ (trackN X k (blob_handler (some X) X initInfo)).blobs_used) ∧
    (∀ X : Nat,
      dlookup X (trackN X 1 (blob_handler (some X) X initInfo)).blob_ref_counts =
          none ∧
        X ∈ (trackN X 1 (blob_handler (some X) X initInfo)).blobs_used) ∧
    (∀ (X k : Nat), 1 ≤ k →
      X ∈ (trackN X k initInfo).blobs_unknown ∧
        dlookup X (trackN X k initInfo).blob_ref_counts = none) := by
  have hA : ∀ X : Nat, blob_handler (some X) X initInfo =
      { blob_ref_counts := [], blobs_new := [X], blobs_used := []
        blobs_unknown := [], blobs_unmarked := [] } := by
    intro X; simp [blob_handler, initInfo, setAdd]
  have h1 : ∀ X : Nat,
      track_blob X ({ blob_ref_counts := [], blobs_new := [X], blobs_used := []
                      blobs_unknown := [], blobs_unmarked := [] } : InfoState) =
        { blob_ref_counts := [], blobs_new := [], blobs_used := [X]
          blobs_unknown := [], blobs_unmarked := [] } := by
    intro X; simp [track_blob, dlookup, setAdd, List.filter]
  have h2 : ∀ X : Nat,
      track_blob X ({ blob_ref_counts := [], blobs_new := [], blobs_used := [X]
                      blobs_unknown := [], blobs_unmarked := [] } : InfoState) =
        { blob_ref_counts := [(X, 2)], blobs_new := [], blobs_used := []
          blobs_unknown := [], blobs_unmarked := [] } := by
    intro X; simp [track_blob, dlookup, dinsert, List.filter]
  refine ⟨?_, ?_, ?_⟩
  · intro X k hk
    obtain ⟨j, rfl⟩ : ∃ j, k = j + 2 := ⟨k - 2, by omega⟩
    have hstep : trackN X (j + 2) (blob_handler (some X) X initInfo) =
        trackN X j (track_blob X (track_blob X (blob_handler (some X) X initInfo))) :=
      rfl
    rw [hstep, hA, h1, h2, trackN_counts_iter X j 2]
    constructor
    · have : 2 + j = j + 2 := by omega
      simp [dlookup, this]
    · simp
  · intro X
    have hstep : trackN X 1 (blob_handler (some X) X initInfo) =
        track_blob X (blob_handler (some X) X initInfo) := rfl
    rw [hstep, hA, h1]
    exact ⟨rfl, by simp⟩
  · intro X k hk
    obtain ⟨j, rfl⟩ : ∃ j, k = j + 1 := ⟨k - 1, by omega⟩
    have h0 : track_blob X initInfo =
        { blob_ref_counts := [], blobs_new := [], blobs_used := []
          blobs_unknown := [X], blobs_unmarked := [] } := by
      simp [track_blob, initInfo, dlookup, setAdd]
    have hstep : trackN X (j + 1) initInfo = trackN X j (track_blob X initInfo) := rfl
    rw [hstep, h0, trackN_unknown_fix X j]
    exact ⟨by simp, rfl⟩

/-- Witness for C10: mark 5 declared and referenced three times has count 3;
a lone reference leaves mark 6 in `used`; undeclared mark 9 referenced twice
is `unknown`. -/
theorem blob_ref_count_tracking_witness :
    (2 ≤ 3 ∧
      dlookup 5 (trackN 5 3 (blob_handler (some 5) 5 initInfo)).blob_ref_counts =
        some 3) ∧
    (1 ≤ 2 ∧ 9 ∈ (trackN 9 2 initInfo).blobs_unknown) :=
  ⟨⟨by decide, (blob_ref_count_tracking.1 5 3 (by decide)).1⟩,
    ⟨by decide, (blob_ref_count_tracking.2.2 9 2 (by decide)).1⟩⟩

/-- C6 (amended): for every id `X` under which the empty payload is stored,
*provided `X` is not reference-counted* (no hints, or `X` absent from them),
every subsequent fetch returns the empty payload without changing the state,
so `X` is never evicted.  (When `X` carries a reference count the empty blob
is ordinary sticky data and is evicted on count exhaustion — see the
counterexample.) -/
theorem empty_blob_retained :
    ∀ (rc : List (Nat × Int)) (X : Nat) (k : Nat),
      rc = [] ∨ dlookup X rc = none →
      ∃ st1 : CMState,
        store_blob X [] (initState rc) = .ok st1 ∧
        dlookup X st1.sticky_blobs = some [] ∧
        fetchN X k st1 = .ok (List.replicate k [], st1) := by
  intro rc X k h
  refine ⟨{ initState rc with sticky_blobs := [(X, ([] : Data))] }, ?_, ?_, ?_⟩
  · by_cases hrc : rc = []
    · subst hrc
      simp [store_blob, initState, dinsert, sticky_cache_size]
    · have hl : dlookup X rc = none := h.resolve_left hrc
      simp [store_blob, initState, dinsert, hrc, hl]
  · simp [dlookup]
  · have hfix : fetch_blob X { initState rc with sticky_blobs := [(X, ([] : Data))] } =
        .ok ([], { initState rc with sticky_blobs := [(X, ([] : Data))] }) := by
      rcases h with hrc | hl
      · subst hrc
        simp [fetch_blob, initState, dlookup, decref]
      · simp [fetch_blob, initState, dlookup, decref, hl]
    induction k with
    | zero => rfl
    | succ k ih =>
      simp only [fetchN, hfix, ih, List.replicate_succ]

/-- Witness for C6 at a concrete non-reference-counted id. -/
theorem empty_blob_retained_witness :
    (([((9 : Nat), (3 : Int))] = [] ∨ dlookup 4 [((9 : Nat), (3 : Int))] = none) ∧
      ∃ st1 : CMState,
        store_blob 4 [] (initState [(9, 3)]) = .ok st1 ∧
        dlookup 4 st1.sticky_blobs = some [] ∧
        fetchN 4 5 st1 = .ok (List.replicate 5 [], st1)) :=
  ⟨Or.inr (by decide), empty_blob_retained [(9, 3)] 4 5 (Or.inr (by decide))⟩

/-- C6 counterexample: with reference-count hints `{4 ↦ 1}` the empty
payload stored under id 4 *is* evicted by its first fetch (all tiers empty
afterwards) and a second fetch raises the lookup error, refuting "never
evicted regardless of the reference-count hints". -/
theorem empty_blob_counterexample :
    (store_blob 4 [] (initState [(4, 1)])).bind (fun st => fetch_blob 4 st) =
        .ok ([], initState []) ∧
    dlookup 4 (initState []).sticky_blobs = none ∧
    dlookup 4 (initState []).blobs = none ∧
    dlookup 4 (initState []).disk_blobs = none ∧
    fetch_blob 4 (initState []) = .error .keyError := by
  exact ⟨by decide, by decide, by decide, by decide, by decide⟩

/-- C7 counterexample: seeding counts `{5 ↦ 1}` and running
store 3, store 5, fetch 5, store 3 leaves id 3 in the transient map *and*
the sticky map at once (the hints dictionary empties when blob 5's count is
exhausted, so the second store of id 3 is classified sticky while its first
payload still sits in the transient tier), refuting "at most one tier" for
unrestricted operation sequences. -/
theorem one_tier_counterexample :
    Reach [(5, 1)]
        { blobs := [(3, [97])], sticky_blobs := [(3, [99])],
          sticky_memory_bytes := 1, disk_blobs := [], blob_ref_counts := [],
          tempdir := false, small_file := [], files := [], next_fname := 0 } ∧
    (dlookup 3
        ({ blobs := [(3, [97])], sticky_blobs := [(3, [99])],
           sticky_memory_bytes := 1, disk_blobs := [], blob_ref_counts := [],
           tempdir := false, small_file := [], files := [],
           next_fname := 0 } : CMState).blobs).isSome = true ∧
    (dlookup 3
        ({ blobs := [(3, [97])], sticky_blobs := [(3, [99])],
           sticky_memory_bytes := 1, disk_blobs := [], blob_ref_counts := [],
           tempdir := false, small_file := [], files := [],
           next_fname := 0 } : CMState).sticky_blobs).isSome = true := by
  refine ⟨?_, by decide, by decide⟩
  have r0 : Reach [(5, 1)] (initState [(5, 1)]) := Reach.init
  have h1 : store_blob 3 [97] (initState [(5, 1)]) =
      .ok { blobs := [(3, [97])], sticky_blobs := [], sticky_memory_bytes := 0,
            disk_blobs := [], blob_ref_counts := [(5, 1)], tempdir := false,
            small_file := [], files := [], next_fname := 0 } := by decide
  have r1 := Reach.store r0 h1
  have h2 : store_blob 5 [98]
      { blobs := [(3, [97])], sticky_blobs := [], sticky_memory_bytes := 0,
        disk_blobs := [], blob_ref_counts := [(5, 1)], tempdir := false,
        small_file := [], files := [], next_fname := 0 } =
      .ok { blobs := [(3, [97])], sticky_blobs := [(5, [98])],
            sticky_memory_bytes := 1, disk_blobs := [],
            blob_ref_counts := [(5, 1)], tempdir := false, small_file := [],
            files := [], next_fname := 0 } := by decide
  have r2 := Reach.store r1 h2
  have h3 : fetch_blob 5
      { blobs := [(3, [97])], sticky_blobs := [(5, [98])],
        sticky_memory_bytes := 1, disk_blobs := [], blob_ref_counts := [(5, 1)],
        tempdir := false, small_file := [], files := [], next_fname := 0 } =
      .ok ([98],
        { blobs := [(3, [97])], sticky_blobs := [], sticky_memory_bytes := 0,
          disk_blobs := [], blob_ref_counts := [], tempdir := false,
          small_file := [], files := [], next_fname := 0 }) := by decide
  have r3 := Reach.fetch r2 h3
  have h4 : store_blob 3 [99]
      { blobs := [(3, [97])], sticky_blobs := [], sticky_memory_bytes := 0,
        disk_blobs := [], blob_ref_counts := [], tempdir := false,
        small_file := [], files := [], next_fname := 0 } =
      .ok { blobs := [(3, [97])], sticky_blobs := [(3, [99])],
            sticky_memory_bytes := 1, disk_blobs := [], blob_ref_counts := [],
            tempdir := false, small_file := [], files := [],
            next_fname := 0 } := by decide
  exact Reach.store r3 h4

/-- C4 counterexample: a mark containing a space does not survive the round
trip — exporting `{"a b" ↦ "c"}` writes the line `:a b c`, which imports as
`{"a" ↦ "b c"}`. -/
theorem marks_roundtrip_counterexample :
    import_marks (export_marks true [([ 'a', ' ', 'b' ], [ 'c' ])]).1 =
        .ok (some [([ 'a' ], [ 'b', ' ', 'c' ])], []) ∧
    ([([ 'a' ], [ 'b', ' ', 'c' ])] : List (MStr × MStr)) ≠
      [([ 'a', ' ', 'b' ], [ 'c' ])] := by
  exact ⟨by decide, by decide⟩

theorem fetchN_sticky_hold :
    ∀ (k : Nat) (rc' : List (Nat × Int)) (X : Nat) (data : Data),
      (dkeys rc').Nodup → dlookup X rc' = some ((k : Nat) : Int) → 0 < k →
      fetchN X k ⟨[], [(X, data)], (data.length : Int), [], rc', false, [], [], 0⟩ =
        .ok (List.replicate k data,
          ⟨[], [], 0, [], derase X rc', false, [], [], 0⟩) := by
  intro k
  induction k with
  | zero => intro rc' X data _ _ h; exact absurd h (lt_irrefl 0)
  | succ k ih =>
    intro rc' X data hnd hl _
    have hne : rc' ≠ [] := by
      intro h; rw [h] at hl; exact Option.noConfusion hl
    rcases Nat.eq_zero_or_pos k with hk0 | hkpos
    · subst hk0
      have hl1 : dlookup X rc' = some (1 : Int) := by exact_mod_cast hl
      have hfetch : fetch_blob X
          (⟨[], [(X, data)], (data.length : Int), [], rc', false, [], [], 0⟩ : CMState) =
          .ok (data, ⟨[], [], 0, [], derase X rc', false, [], [], 0⟩) := by
        simp [fetch_blob, dlookup, decref, hne, hl1, derase]
      simp [fetchN, hfetch]
    · have hlk : dlookup X rc' = some (((k : Nat) : Int) + 1) := by
        exact_mod_cast hl
      have hfetch : fetch_blob X
          (⟨[], [(X, data)], (data.length : Int), [], rc', false, [], [], 0⟩ : CMState) =
          .ok (data, ⟨[], [(X, data)], (data.length : Int), [],
            dinsert X ((k : Nat) : Int) rc', false, [], [], 0⟩) := by
        have hkne : k ≠ 0 := Nat.pos_iff_ne_zero.mp hkpos
        simp [fetch_blob, dlookup, decref, hne, hlk, hkne]
      have ihres := ih (dinsert X ((k : Nat) : Int) rc') X data
        (dkeys_dinsert_nodup _ _ hnd) (dlookup_dinsert_self _ _ _) hkpos
      rw [derase_dinsert_self] at ihres
      simp only [fetchN, hfetch, ihres, List.replicate_succ]

theorem fetchN_disk_hold :
    ∀ (k : Nat) (rc' : List (Nat × Int)) (X : Nat) (data : Data),
      (dkeys rc').Nodup → dlookup X rc' = some ((k : Nat) : Int) → 0 < k →
      fetchN X k ⟨[], [], 0, [(X, (0, data.length, some 0))], rc', true, [],
          [(0, data)], 1⟩ =
        .ok (List.replicate k data,
          ⟨[], [], 0, [], derase X rc', true, [], [], 1⟩) := by
  intro k
  induction k with
  | zero => intro rc' X data _ _ h; exact absurd h (lt_irrefl 0)
  | succ k ih =>
    intro rc' X data hnd hl _
    have hne : rc' ≠ [] := by
      intro h; rw [h] at hl; exact Option.noConfusion hl
    rcases Nat.eq_zero_or_pos k with hk0 | hkpos
    · subst hk0
      have hl1 : dlookup X rc' = some (1 : Int) := by exact_mod_cast hl
      have hfetch : fetch_blob X
          (⟨[], [], 0, [(X, (0, data.length, some 0))], rc', true, [],
            [(0, data)], 1⟩ : CMState) =
          .ok (data, ⟨[], [], 0, [], derase X rc', true, [], [], 1⟩) := by
        simp [fetch_blob, diskFetchContent, dlookup, decref, hne, hl1, derase]
      simp [fetchN, hfetch]
    · have hlk : dlookup X rc' = some (((k : Nat) : Int) + 1) := by
        exact_mod_cast hl
      have hfetch : fetch_blob X
          (⟨[], [], 0, [(X, (0, data.length, some 0))], rc', true, [],
            [(0, data)], 1⟩ : CMState) =
          .ok (data, ⟨[], [], 0, [(X, (0, data.length, some 0))],
            dinsert X ((k : Nat) : Int) rc', true, [], [(0, data)], 1⟩) := by
        have hkne : k ≠ 0 := Nat.pos_iff_ne_zero.mp hkpos
        simp [fetch_blob, diskFetchContent, dlookup, decref, hne, hlk, hkne]
      have ihres := ih (dinsert X ((k : Nat) : Int) rc') X data
        (dkeys_dinsert_nodup _ _ hnd) (dlookup_dinsert_self _ _ _) hkpos
      rw [derase_dinsert_self] at ihres
      simp only [fetchN, hfetch, ihres, List.replicate_succ]

theorem store_blob_init_small {rc : List (Nat × Int)} {X : Nat} {data : Data}
    {c : Int} (hl : dlookup X rc = some c)
    (hsize : ¬((data.length : Int) > sticky_cache_size)) :
    store_blob X data (initState rc) =
      .ok ⟨[], [(X, data)], (data.length : Int), [], rc, false, [], [], 0⟩ := by
  simp [store_blob, initState, dinsert, hl, hsize]

theorem store_blob_init_big {rc : List (Nat × Int)} {X : Nat} {data : Data}
    {c : Int} (hl : dlookup X rc = some c)
    (hsize : (data.length : Int) > sticky_cache_size) :
    store_blob X data (initState rc) =
      .ok ⟨[], [], 0, [(X, (0, data.length, some 0))], rc, true, [],
        [(0, data)], 1⟩ := by
  have hlow : (data.length : Int) > sticky_flushed_size := by
    have : sticky_flushed_size < sticky_cache_size := by decide
    omega
  have hnotsmall : ¬(data.length < small_blob_threshold) := by
    have h1 : (small_blob_threshold : Int) < sticky_cache_size := by decide
    intro hcon
    have : (data.length : Int) < small_blob_threshold := by exact_mod_cast hcon
    omega
  simp [store_blob, initState, dinsert, hl, hsize, flush_blobs_to_disk,
    sortBySize, insertBySize, flushLoop, evictOne, derase, hlow, hnotsmall]
  decide

/-- C2: for a blob stored under id X carrying reference count N > 0, the
first N fetches each return the stored payload, the entry is absent from all
three tiers after the Nth fetch, and the (N+1)th fetch raises the lookup
error.  This holds whether the blob stays sticky or is flushed to disk by
the store. -/
theorem fetch_refcount_exhaustion :
    ∀ (rc : List (Nat × Int)) (X : Nat) (n : Nat) (data : Data),
      (dkeys rc).Nodup →
      dlookup X rc = some ((n : Nat) : Int) →
      0 < n →
      ∃ st1 stN : CMState,
        store_blob X data (initState rc) = .ok st1 ∧
        fetchN X n st1 = .ok (List.replicate n data, stN) ∧
        dlookup X stN.blobs = none ∧
        dlookup X stN.sticky_blobs = none ∧
        dlookup X stN.disk_blobs = none ∧
        fetch_blob X stN = .error .keyError := by
  intro rc X n data hnd hl hpos
  by_cases hsize : (data.length : Int) > sticky_cache_size
  · refine ⟨_, _, store_blob_init_big hl hsize, fetchN_disk_hold n rc X data hnd hl hpos,
      rfl, rfl, rfl, ?_⟩
    simp [fetch_blob, dlookup]
  · refine ⟨_, _, store_blob_init_small hl hsize, fetchN_sticky_hold n rc X data hnd hl hpos,
      rfl, rfl, rfl, ?_⟩
    simp [fetch_blob, dlookup]

/-- Witness for C2: id 7 with count 2 and payload `[1, 2, 3]`. -/
theorem fetch_refcount_exhaustion_witness :
    ((dkeys [((7 : Nat), (2 : Int))]).Nodup ∧
      dlookup 7 [((7 : Nat), (2 : Int))] = some ((2 : Nat) : Int) ∧ 0 < 2) ∧
    (∃ st1 stN : CMState,
      store_blob 7 [1, 2, 3] (initState [(7, 2)]) = .ok st1 ∧
      fetchN 7 2 st1 = .ok (List.replicate 2 [1, 2, 3], stN) ∧
      dlookup 7 stN.blobs = none ∧
      dlookup 7 stN.sticky_blobs = none ∧
      dlookup 7 stN.disk_blobs = none ∧
      fetch_blob 7 stN = .error .keyError) :=
  ⟨⟨by decide, by decide, by decide⟩,
    fetch_refcount_exhaustion [(7, 2)] 7 2 [1, 2, 3] (by decide) (by decide) (by decide)⟩

/-! ## Marks round-trip lemmas -/

theorem splitLinesAux_line (a : MStr) :
    ∀ (acc rest : MStr), '\n' ∉ a →
      splitLinesAux (a ++ '\n' :: rest) acc =
        (acc.reverse ++ a ++ ['\n']) :: splitLinesAux rest [] := by
  induction a with
  | nil => intro acc rest _; simp [splitLinesAux]
  | cons c a ih =>
    intro acc rest h
    have hc : ¬(c = '\n') := fun hh => h (hh ▸ List.mem_cons_self c a)
    have ha : '\n' ∉ a := fun hh => h (List.mem_cons_of_mem c hh)
    simp only [List.cons_append, splitLinesAux, if_neg hc, List.append_eq]
    rw [ih (c :: acc) rest ha]
    simp

theorem rstripNl_append_nl (l : MStr) : rstripNl (l ++ ['\n']) = rstripNl l := by
  simp [rstripNl, List.dropWhile]

theorem rstripNl_eq_self {l : MStr} (h : '\n' ∉ l) : rstripNl l = l := by
  rcases hrev : l.reverse with _ | ⟨c, t⟩
  · have : l = [] := by simpa using congrArg List.reverse hrev
    subst this; rfl
  · have hc : c ∈ l := by
      rw [← List.mem_reverse, hrev]; exact List.mem_cons_self _ _
    have hcn : ¬(c = '\n') := fun hh => h (hh ▸ hc)
    have : rstripNl l = (c :: t).reverse := by
      simp [rstripNl, hrev, List.dropWhile, hcn]
    rw [this, ← hrev, List.reverse_reverse]

theorem splitFirstSpaceAux_no_space (k : MStr) :
    ∀ (acc v : MStr), ' ' ∉ k →
      splitFirstSpaceAux (k ++ ' ' :: v) acc = (acc.reverse ++ k, some v) := by
  induction k with
  | nil => intro acc v _; simp [splitFirstSpaceAux]
  | cons c k ih =>
    intro acc v h
    have hc : ¬(c = ' ') := fun hh => h (hh ▸ List.mem_cons_self c k)
    have hk : ' ' ∉ k := fun hh => h (List.mem_cons_of_mem c hh)
    simp only [List.cons_append, splitFirstSpaceAux, if_neg hc, List.append_eq]
    rw [ih (c :: acc) v hk]
    simp

theorem parseMarksLine_render {k v : MStr} (hks : ' ' ∉ k) (hkn : '\n' ∉ k)
    (hvn : '\n' ∉ v) : parseMarksLine (renderMarksLine (k, v)) = .ok (k, v) := by
  have hline : renderMarksLine (k, v) = (':' :: k ++ ' ' :: v) ++ ['\n'] := by
    simp [renderMarksLine]
  have hnonl : '\n' ∉ ':' :: k ++ ' ' :: v := by
    intro h
    rcases List.mem_cons.mp h with h | h
    · exact absurd h (by decide)
    · rcases List.mem_append.mp h with h | h
      · exact hkn h
      · rcases List.mem_cons.mp h with h | h
        · exact absurd h (by decide)
        · exact hvn h
  have hsplit : splitFirstSpace (':' :: k ++ ' ' :: v) = (':' :: k, some v) := by
    have : (':' :: k) ++ ' ' :: v = ':' :: k ++ ' ' :: v := by simp
    rw [splitFirstSpace, ← this,
      splitFirstSpaceAux_no_space (':' :: k) [] v
        (fun hh => by
          rcases List.mem_cons.mp hh with h | h
          · exact absurd h (by decide)
          · exact hks h)]
    simp
  rw [parseMarksLine, hline, rstripNl_append_nl, rstripNl_eq_self hnonl, hsplit]
  simp

theorem parseMarksLines_render (m : List (MStr × MStr)) :
    ∀ acc : List (MStr × MStr),
      (dkeys m).Nodup →
      (∀ p ∈ m, p.1 ∉ dkeys acc) →
      (∀ p ∈ m, ' ' ∉ p.1 ∧ '\n' ∉ p.1 ∧ '\n' ∉ p.2) →
      parseMarksLines (m.map renderMarksLine) acc = .ok (acc ++ m) := by
  induction m with
  | nil => intro acc _ _ _; simp [parseMarksLines]
  | cons p m ih =>
    intro acc hnd hfresh hchars
    obtain ⟨k, v⟩ := p
    obtain ⟨hks, hkn, hvn⟩ := hchars (k, v) (List.mem_cons_self _ _)
    simp only [List.map_cons, parseMarksLines, parseMarksLine_render hks hkn hvn]
    rw [dinsert_eq_append v (hfresh (k, v) (List.mem_cons_self _ _))]
    have hnd0 : (k :: dkeys m).Nodup := by simpa [dkeys] using hnd
    have hnd' : (dkeys m).Nodup := (List.nodup_cons.mp hnd0).2
    have hk_not_m : k ∉ dkeys m := (List.nodup_cons.mp hnd0).1
    have hfresh' : ∀ q ∈ m, q.1 ∉ dkeys (acc ++ [(k, v)]) := by
      intro q hq hmem
      simp only [dkeys, List.map_append, List.mem_append] at hmem
      rcases hmem with h | h
      · exact hfresh q (List.mem_cons_of_mem _ hq) h
      · simp only [List.map_cons, List.map_nil, List.mem_singleton] at h
        exact hk_not_m (h ▸ List.mem_map_of_mem Prod.fst hq)
    have hchars' : ∀ q ∈ m, ' ' ∉ q.1 ∧ '\n' ∉ q.1 ∧ '\n' ∉ q.2 :=
      fun q hq => hchars q (List.mem_cons_of_mem _ hq)
    rw [ih (acc ++ [(k, v)]) hnd' hfresh' hchars']
    simp

theorem splitLines_render_flatten (m : List (MStr × MStr)) :
    (∀ p ∈ m, '\n' ∉ p.1 ∧ '\n' ∉ p.2) →
    splitLines ((m.map renderMarksLine).flatten) = m.map renderMarksLine := by
  induction m with
  | nil => intro _; rfl
  | cons p m ih =>
    intro hchars
    obtain ⟨k, v⟩ := p
    obtain ⟨hkn, hvn⟩ := hchars (k, v) (List.mem_cons_self _ _)
    have hbody : '\n' ∉ ':' :: k ++ ' ' :: v := by
      intro h
      rcases List.mem_cons.mp h with h | h
      · exact absurd h (by decide)
      · rcases List.mem_append.mp h with h | h
        · exact hkn h
        · rcases List.mem_cons.mp h with h | h
          · exact absurd h (by decide)
          · exact hvn h
    have hflat : (((k, v) :: m).map renderMarksLine).flatten =
        (':' :: k ++ ' ' :: v) ++ '\n' :: (m.map renderMarksLine).flatten := by
      simp [renderMarksLine]
    rw [hflat, splitLines, splitLinesAux_line _ [] _ hbody]
    have := ih (fun q hq => hchars q (List.mem_cons_of_mem _ hq))
    rw [splitLines] at this
    rw [this]
    simp [renderMarksLine]

/-- C4 (amended): for every non-empty marks mapping whose marks contain no
space and no newline and whose identifiers contain no newline, exporting
with `export_marks` and re-reading with `import_marks` returns exactly the
mapping.  (Without those restrictions the round trip fails — a space inside
a mark shifts the split point; see the counterexample.) -/
theorem marks_roundtrip :
    ∀ m : List (MStr × MStr), m ≠ [] → (dkeys m).Nodup →
      (∀ p ∈ m, ' ' ∉ p.1 ∧ '\n' ∉ p.1 ∧ '\n' ∉ p.2) →
      import_marks (export_marks true m).1 = .ok (some m, []) := by
  intro m _ hnd hchars
  have hexp : (export_marks true m).1 = some ((m.map renderMarksLine).flatten) := by
    simp [export_marks]
  rw [hexp, import_marks,
    splitLines_render_flatten m (fun p hp => ⟨(hchars p hp).2.1, (hchars p hp).2.2⟩),
    parseMarksLines_render m [] hnd (by simp [dkeys]) hchars]
  simp

/-- Witness for C4: the singleton mapping `{"a" ↦ "b"}`. -/
theorem marks_roundtrip_witness :
    (([(([ 'a' ] : MStr), ([ 'b' ] : MStr))] : List (MStr × MStr)) ≠ [] ∧
      (dkeys [(([ 'a' ] : MStr), ([ 'b' ] : MStr))]).Nodup ∧
      (∀ p ∈ [(([ 'a' ] : MStr), ([ 'b' ] : MStr))],
        ' ' ∉ p.1 ∧ '\n' ∉ p.1 ∧ '\n' ∉ p.2)) ∧
    import_marks (export_marks true [(([ 'a' ] : MStr), ([ 'b' ] : MStr))]).1 =
      .ok (some [(([ 'a' ] : MStr), ([ 'b' ] : MStr))], []) :=
  ⟨⟨by decide, by decide, by decide⟩,
    marks_roundtrip [([ 'a' ], [ 'b' ])] (by decide) (by decide) (by decide)⟩

/-! ## Flush-loop master lemma -/

theorem sumSizes_cons (i : Nat) (b : Data) (l : List (Nat × Data)) :
    sumSizes ((i, b) :: l) = (b.length : Int) + sumSizes l := by
  simp [sumSizes]

theorem sumSizes_perm {l1 l2 : List (Nat × Data)} (h : l1.Perm l2) :
    sumSizes l1 = sumSizes l2 :=
  (h.map _).sum_eq

theorem evictOne_small {i : Nat} {b : Data} (st : CMState)
    (h : b.length < small_blob_threshold) :
    evictOne i b st =
      { st with sticky_blobs := derase i st.sticky_blobs
                sticky_memory_bytes := st.sticky_memory_bytes - (b.length : Int)
                disk_blobs := dinsert i (st.small_file.length, b.length, none)
                  st.disk_blobs
                small_file := st.small_file ++ b } := by
  simp [evictOne, h]

theorem evictOne_large {i : Nat} {b : Data} (st : CMState)
    (h : ¬(b.length < small_blob_threshold)) :
    evictOne i b st =
      { st with sticky_blobs := derase i st.sticky_blobs
                sticky_memory_bytes := st.sticky_memory_bytes - (b.length : Int)
                disk_blobs := dinsert i (0, b.length, some st.next_fname)
                  st.disk_blobs
                files := dinsert st.next_fname b st.files
                next_fname := st.next_fname + 1 } := by
  simp [evictOne, h]

theorem flushLoop_master :
    ∀ (l : List (Nat × Data)) (st : CMState),
      (dkeys l).Nodup →
      st.sticky_blobs.Perm l →
      st.sticky_memory_bytes = sumSizes l →
      filesBound st →
      ∃ (k : Nat) (st' : CMState),
        flushLoop l st = .ok st' ∧
        k ≤ l.length ∧
        st'.sticky_blobs.Perm (l.drop k) ∧
        st'.sticky_memory_bytes = sumSizes (l.drop k) ∧
        st'.sticky_memory_bytes ≤ sticky_flushed_size ∧
        st'.blobs = st.blobs ∧
        st'.blob_ref_counts = st.blob_ref_counts ∧
        st'.tempdir = st.tempdir ∧
        (∃ suf : Data, st'.small_file = st.small_file ++ suf) ∧
        (∀ f c, dlookup f st.files = some c → dlookup f st'.files = some c) ∧
        filesBound st' ∧
        (∀ j, j ∉ dkeys (l.take k) →
          dlookup j st'.disk_blobs = dlookup j st.disk_blobs) ∧
        (∀ p ∈ l.take k, ∃ e, dlookup p.1 st'.disk_blobs = some e ∧
          e.2.1 = p.2.length ∧ diskEntryOK p.2 e st') ∧
        ((dkeys st.disk_blobs).Nodup → (dkeys st'.disk_blobs).Nodup) := by
  intro l
  induction l with
  | nil =>
    intro st hnd hperm hmem hfb
    have hng : ¬(st.sticky_memory_bytes > sticky_flushed_size) := by
      rw [hmem]; decide
    refine ⟨0, st, ?_, by simp, hperm, hmem, ?_, rfl, rfl, rfl,
      ⟨[], by simp⟩, fun f c h => h, hfb, fun j _ => rfl, by simp, fun h => h⟩
    · simp [flushLoop, hng]
    · rw [hmem]; decide
  | cons p rest ih =>
    obtain ⟨i, b⟩ := p
    intro st hnd hperm hmem hfb
    by_cases hguard : st.sticky_memory_bytes > sticky_flushed_size
    · -- evict (i, b), then recurse
      have hnd0 : (i :: dkeys rest).Nodup := by simpa [dkeys] using hnd
      have hndr : (dkeys rest).Nodup := (List.nodup_cons.mp hnd0).2
      have hnotr : i ∉ dkeys rest := (List.nodup_cons.mp hnd0).1
      have hperm1 : (derase i st.sticky_blobs).Perm rest :=
        derase_perm_of_perm hnd hperm
      have hmem1 : st.sticky_memory_bytes - (b.length : Int) = sumSizes rest := by
        rw [hmem, sumSizes_cons]; ring
      by_cases hsmall : b.length < small_blob_threshold
      · have hev := evictOne_small (i := i) st hsmall
        set st1 := { st with sticky_blobs := derase i st.sticky_blobs
                             sticky_memory_bytes :=
                               st.sticky_memory_bytes - (b.length : Int)
                             disk_blobs := dinsert i
                               (st.small_file.length, b.length, none) st.disk_blobs
                             small_file := st.small_file ++ b } with hst1
        have hfb1 : filesBound st1 := hfb
        obtain ⟨k, st', hrun, hk, hperm', hmem', hlow', hblobs', hrc', htd',
            ⟨suf, hsf⟩, hfiles', hfb', hdiskother', hdisknew', hdn'⟩ :=
          ih st1 hndr (by rw [hst1]; exact hperm1) (by rw [hst1]; exact hmem1) hfb1
        refine ⟨k + 1, st', ?_, by simpa using Nat.succ_le_succ hk, hperm', hmem',
          hlow', hblobs', hrc', htd', ⟨b ++ suf, ?_⟩, ?_, hfb', ?_, ?_, ?_⟩
        · show (if st.sticky_memory_bytes > sticky_flushed_size then
              flushLoop rest (evictOne i b st) else .ok st) = .ok st'
          rw [if_pos hguard, hev, hrun]
        · rw [hsf, hst1]; simp
        · intro f c hf
          exact hfiles' f c hf
        · intro j hj
          have hsplit : dkeys ((((i, b) :: rest)).take (k + 1)) =
              i :: dkeys (rest.take k) := by
            rw [List.take_succ_cons]; rfl
          rw [hsplit, List.mem_cons, not_or] at hj
          rw [hdiskother' j hj.2, hst1]
          exact dlookup_dinsert_ne _ _ (fun hh => hj.1 hh.symm)
        · intro q hq
          rw [List.take_succ_cons] at hq
          rw [List.mem_cons] at hq
          rcases hq with hq | hq
          · subst hq
            have hiq : i ∉ dkeys (rest.take k) := by
              intro hh
              apply hnotr
              have hmt : dkeys (rest.take k) = (dkeys rest).take k := by
                simp [dkeys, List.map_take]
              rw [hmt] at hh
              exact List.take_subset _ _ hh
            refine ⟨(st.small_file.length, b.length, none), ?_, rfl, ?_⟩
            · rw [hdiskother' i hiq, hst1]
              exact dlookup_dinsert_self _ _ _
            · refine Or.inl ⟨hsmall, st.small_file.length, rfl, ?_⟩
              rw [hsf, hst1]
              show ((st.small_file ++ b ++ suf).drop st.small_file.length).take
                  b.length = b
              rw [List.append_assoc, List.drop_left, List.take_left]
          · exact hdisknew' q hq
        · intro hdisknd
          apply hdn'
          rw [hst1]
          exact dkeys_dinsert_nodup _ _ hdisknd
      · have hev := evictOne_large (i := i) st hsmall
        set st1 := { st with sticky_blobs := derase i st.sticky_blobs
                             sticky_memory_bytes :=
                               st.sticky_memory_bytes - (b.length : Int)
                             disk_blobs := dinsert i
                               (0, b.length, some st.next_fname) st.disk_blobs
                             files := dinsert st.next_fname b st.files
                             next_fname := st.next_fname + 1 } with hst1
        have hfresh : st.next_fname ∉ dkeys st.files := by
          intro hmem'
          obtain ⟨x, hx⟩ : ∃ x, (st.next_fname, x) ∈ st.files := by
            simpa [dkeys] using hmem'
          exact absurd (hfb _ hx) (lt_irrefl _)
        have hfb1 : filesBound st1 := by
          intro q hq
          rw [hst1] at hq
          simp only at hq
          rcases mem_dinsert hq with h | h
          · rw [hst1]; simp [h]
          · have := hfb q h
            rw [hst1]; simp only; omega
        obtain ⟨k, st', hrun, hk, hperm', hmem', hlow', hblobs', hrc', htd',
            ⟨suf, hsf⟩, hfiles', hfb', hdiskother', hdisknew', hdn'⟩ :=
          ih st1 hndr (by rw [hst1]; exact hperm1) (by rw [hst1]; exact hmem1) hfb1
        refine ⟨k + 1, st', ?_, by simpa using Nat.succ_le_succ hk, hperm', hmem',
          hlow', hblobs', hrc', htd', ⟨suf, ?_⟩, ?_, hfb', ?_, ?_, ?_⟩
        · show (if st.sticky_memory_bytes > sticky_flushed_size then
              flushLoop rest (evictOne i b st) else .ok st) = .ok st'
          rw [if_pos hguard, hev, hrun]
        · rw [hsf, hst1]
        · intro f c hf
          apply hfiles' f c
          rw [hst1]
          simp only
          have hfn : f ≠ st.next_fname := by
            have hf1 := mem_dkeys_of_dlookup hf
            intro hh
            exact hfresh (hh ▸ hf1)
          rw [dlookup_dinsert_ne _ _ (fun hh => hfn hh.symm)]
          exact hf
        · intro j hj
          have hsplit : dkeys ((((i, b) :: rest)).take (k + 1)) =
              i :: dkeys (rest.take k) := by
            rw [List.take_succ_cons]; rfl
          rw [hsplit, List.mem_cons, not_or] at hj
          rw [hdiskother' j hj.2, hst1]
          exact dlookup_dinsert_ne _ _ (fun hh => hj.1 hh.symm)
        · intro q hq
          rw [List.take_succ_cons] at hq
          rw [List.mem_cons] at hq
          rcases hq with hq | hq
          · subst hq
            have hiq : i ∉ dkeys (rest.take k) := by
              intro hh
              apply hnotr
              have hmt : dkeys (rest.take k) = (dkeys rest).take k := by
                simp [dkeys, List.map_take]
              rw [hmt] at hh
              exact List.take_subset _ _ hh
            refine ⟨(0, b.length, some st.next_fname), ?_, rfl, ?_⟩
            · rw [hdiskother' i hiq, hst1]
              exact dlookup_dinsert_self _ _ _
            · refine Or.inr ⟨Nat.le_of_not_lt hsmall, st.next_fname, rfl, ?_⟩
              apply hfiles'
              rw [hst1]
              exact dlookup_dinsert_self _ _ _
          · exact hdisknew' q hq
        · intro hdisknd
          apply hdn'
          rw [hst1]
          exact dkeys_dinsert_nodup _ _ hdisknd
    · refine ⟨0, st, ?_, by simp, hperm, hmem, not_lt.mp hguard, rfl, rfl, rfl,
        ⟨[], by simp⟩, fun f c h => h, hfb, fun j _ => rfl, by simp, fun h => h⟩
      show (if st.sticky_memory_bytes > sticky_flushed_size then
          flushLoop rest (evictOne i b st) else .ok st) = .ok st
      rw [if_neg hguard]

/-! ## Sort-order lemmas -/

theorem insertBySize_perm (p : Nat × Data) (l : List (Nat × Data)) :
    (insertBySize p l).Perm (p :: l) := by
  induction l with
  | nil => exact List.Perm.refl _
  | cons q rest ih =>
    by_cases h : p.2.length ≤ q.2.length
    · simp [insertBySize, h]
    · simp only [insertBySize, if_neg h]
      exact (ih.cons q).trans (List.Perm.swap p q rest)

theorem sortBySize_perm (l : List (Nat × Data)) : (sortBySize l).Perm l := by
  induction l with
  | nil => exact List.Perm.refl _
  | cons p rest ih =>
    exact (insertBySize_perm p (sortBySize rest)).trans (ih.cons p)

theorem insertBySize_pairwise {p : Nat × Data} {l : List (Nat × Data)}
    (h : l.Pairwise (fun x y => x.2.length ≤ y.2.length)) :
    (insertBySize p l).Pairwise (fun x y => x.2.length ≤ y.2.length) := by
  induction l with
  | nil => simp [insertBySize]
  | cons q rest ih =>
    obtain ⟨hq, hrest⟩ := List.pairwise_cons.mp h
    by_cases hpq : p.2.length ≤ q.2.length
    · simp only [insertBySize, if_pos hpq]
      refine List.pairwise_cons.mpr ⟨?_, h⟩
      intro y hy
      rcases List.mem_cons.mp hy with hy | hy
      · exact hy ▸ hpq
      · exact le_trans hpq (hq y hy)
    · simp only [insertBySize, if_neg hpq]
      refine List.pairwise_cons.mpr ⟨?_, ih hrest⟩
      intro y hy
      rcases List.mem_cons.mp ((insertBySize_perm p rest).mem_iff.mp hy) with hy | hy
      · exact hy ▸ Nat.le_of_lt (Nat.lt_of_not_le hpq)
      · exact hq y hy

theorem sortBySize_pairwise (l : List (Nat × Data)) :
    (sortBySize l).Pairwise (fun x y => x.2.length ≤ y.2.length) := by
  induction l with
  | nil => simp [sortBySize]
  | cons p rest ih => exact insertBySize_pairwise ih

theorem dlookup_eq_of_mem_of_nodup {κ α : Type} [DecidableEq κ] {k : κ} {v : α}
    {d : List (κ × α)} (hnd : (dkeys d).Nodup) (h : (k, v) ∈ d) :
    dlookup k d = some v := by
  induction d with
  | nil => simp at h
  | cons p rest ih =>
    have hnd0 : (p.1 :: dkeys rest).Nodup := by simpa [dkeys] using hnd
    obtain ⟨h1, h2⟩ := List.nodup_cons.mp hnd0
    rcases List.mem_cons.mp h with h | h
    · rw [← h]
      simp [dlookup]
    · have hp1 : p.1 ≠ k := by
        intro hh
        exact h1 (hh ▸ List.mem_map_of_mem Prod.fst h)
      simp only [dlookup, if_neg hp1]
      exact ih h2 h

/-! ## Store-level flush specification -/

theorem store_blob_flush_spec
    {st : CMState} {i : Nat} {data : Data}
    (hnd : (dkeys st.sticky_blobs).Nodup)
    (hfresh : dlookup i st.sticky_blobs = none)
    (hmem : st.sticky_memory_bytes = sumSizes st.sticky_blobs)
    (hfb : filesBound st)
    (hcond : st.blob_ref_counts = [] ∨ (dlookup i st.blob_ref_counts).isSome)
    (htrig : st.sticky_memory_bytes + (data.length : Int) > sticky_cache_size) :
    ∃ st' : CMState, store_blob i data st = .ok st' ∧
      st'.sticky_memory_bytes ≤ sticky_flushed_size ∧
      st'.blobs = st.blobs ∧
      st'.blob_ref_counts = st.blob_ref_counts ∧
      (∀ j, dlookup j st'.disk_blobs ≠ dlookup j st.disk_blobs →
        ∃ (b : Data) (e : Nat × Nat × Option Nat),
          dlookup j (dinsert i data st.sticky_blobs) = some b ∧
          dlookup j st'.disk_blobs = some e ∧ e.2.1 = b.length ∧
          diskEntryOK b e st') ∧
      (∀ q ∈ st'.sticky_blobs, ∀ j e, dlookup j st.disk_blobs = none →
        dlookup j st'.disk_blobs = some e → q.2.length ≤ e.2.1) := by
  have hnotmem : i ∉ dkeys st.sticky_blobs := by
    rw [← dlookup_isSome_iff_mem_dkeys, hfresh]
    simp
  set s1 := dinsert i data st.sticky_blobs with hs1
  have hs1perm : s1.Perm ((i, data) :: st.sticky_blobs) := by
    rw [hs1, dinsert_eq_append data hnotmem]
    exact List.perm_append_singleton _ _
  have hs1nd : (dkeys s1).Nodup := dkeys_dinsert_nodup i data hnd
  have hs1sum : sumSizes s1 = st.sticky_memory_bytes + (data.length : Int) := by
    rw [sumSizes_perm hs1perm, sumSizes_cons, hmem]
    ring
  set stm : CMState :=
    { st with sticky_blobs := s1
              sticky_memory_bytes :=
                st.sticky_memory_bytes + (data.length : Int) } with hstm
  have hrun : store_blob i data st = flush_blobs_to_disk stm := by
    rcases hcond with hrc | hsome
    · simp [store_blob, hrc, htrig, hstm]
    · simp [store_blob, hsome, htrig, hstm]
  set st2 : CMState :=
    if stm.tempdir then stm else { stm with tempdir := true, small_file := [] }
    with hst2
  have hp_sticky : st2.sticky_blobs = s1 := by rw [hst2]; split <;> rfl
  have hp_mem : st2.sticky_memory_bytes =
      st.sticky_memory_bytes + (data.length : Int) := by rw [hst2]; split <;> rfl
  have hp_blobs : st2.blobs = st.blobs := by rw [hst2]; split <;> rfl
  have hp_rc : st2.blob_ref_counts = st.blob_ref_counts := by
    rw [hst2]; split <;> rfl
  have hp_disk : st2.disk_blobs = st.disk_blobs := by rw [hst2]; split <;> rfl
  have hp_files : st2.files = st.files := by rw [hst2]; split <;> rfl
  have hp_next : st2.next_fname = st.next_fname := by rw [hst2]; split <;> rfl
  have hflush : flush_blobs_to_disk stm = flushLoop (sortBySize s1).reverse st2 := by
    rw [flush_blobs_to_disk]
  set l := (sortBySize s1).reverse with hl
  have hlperm : l.Perm s1 := (List.reverse_perm _).trans (sortBySize_perm s1)
  have hlnd : (dkeys l).Nodup := (hlperm.map Prod.fst).symm.nodup hs1nd
  have hsorted : l.Pairwise (fun x y => y.2.length ≤ x.2.length) := by
    rw [hl]
    exact List.pairwise_reverse.mpr (sortBySize_pairwise s1)
  have hfb2 : filesBound st2 := by
    intro p hp
    rw [hp_files] at hp
    rw [hp_next]
    exact hfb p hp
  obtain ⟨k, st', hrunloop, hk, hperm', hmem', hlow', hblobs', hrc', htd',
      hsf, hfiles', hfb', hdiskother', hdisknew', hdn'⟩ :=
    flushLoop_master l st2 hlnd (hp_sticky ▸ hlperm.symm)
      (by rw [hp_mem, ← hs1sum]; exact (sumSizes_perm hlperm).symm) hfb2
  refine ⟨st', ?_, hlow', by rw [hblobs', hp_blobs], by rw [hrc', hp_rc],
    ?_, ?_⟩
  · rw [hrun, hflush, hrunloop]
  · intro j hne
    have hj : j ∈ dkeys (l.take k) := by
      by_contra hmem'
      exact hne (by rw [hdiskother' j hmem', hp_disk])
    obtain ⟨qp, hqp, hfst⟩ :=
      List.mem_map.mp (hj : j ∈ List.map Prod.fst (l.take k))
    have hx : (j, qp.2) ∈ l.take k := by rw [← hfst]; simpa using hqp
    obtain ⟨e, he, hlen, hok⟩ := hdisknew' (j, qp.2) hx
    refine ⟨qp.2, e, ?_, he, hlen, hok⟩
    exact dlookup_eq_of_mem_of_nodup hs1nd
      (hlperm.mem_iff.mp (List.take_subset k l hx))
  · intro q hq j e hnone hsome
    have hqdrop : q ∈ l.drop k := hperm'.mem_iff.mp hq
    have hjtake : j ∈ dkeys (l.take k) := by
      by_contra hmem'
      rw [hdiskother' j hmem', hp_disk, hnone] at hsome
      exact Option.noConfusion hsome
    obtain ⟨qp, hqp, hfst⟩ :=
      List.mem_map.mp (hjtake : j ∈ List.map Prod.fst (l.take k))
    have hx : (j, qp.2) ∈ l.take k := by rw [← hfst]; simpa using hqp
    obtain ⟨e2, he2, hlen2, _⟩ := hdisknew' (j, qp.2) hx
    have hee : e = e2 := by
      rw [hsome] at he2
      exact (Option.some.injEq _ _ ▸ he2 : _)
    have hsorted' := hsorted
    rw [← List.take_append_drop k l] at hsorted'
    have hpa := (List.pairwise_append.mp hsorted').2.2
    have := hpa (j, qp.2) hx q hqdrop
    rw [hee, hlen2]
    exact this

/-- C1 (amended): when accepting a blob pushes sticky memory usage above the
high-water mark (300 MiB), `store_blob` triggers a flush-to-disk pass that
evicts sticky blobs *largest-first* until usage is at or below the low-water
mark (100 MiB); each evicted blob below 75 KiB is appended to the one shared
small-blob file and recorded by (offset, length), and each evicted blob at
or above that threshold is written to its own temporary file.  (The source
sorts ascending and pops from the end of the list, so eviction order is
largest-first, not smallest-first as claimed; see the counterexample.) -/
theorem flush_largest_first
    {st : CMState} {i : Nat} {data : Data}
    (hnd : (dkeys st.sticky_blobs).Nodup)
    (hfresh : dlookup i st.sticky_blobs = none)
    (hmem : st.sticky_memory_bytes = sumSizes st.sticky_blobs)
    (hfb : filesBound st)
    (hcond : st.blob_ref_counts = [] ∨ (dlookup i st.blob_ref_counts).isSome)
    (htrig : st.sticky_memory_bytes + (data.length : Int) > sticky_cache_size) :
    ∃ st' : CMState, store_blob i data st = .ok st' ∧
      st'.sticky_memory_bytes ≤ sticky_flushed_size ∧
      (∀ j, dlookup j st'.disk_blobs ≠ dlookup j st.disk_blobs →
        ∃ (b : Data) (e : Nat × Nat × Option Nat),
          dlookup j (dinsert i data st.sticky_blobs) = some b ∧
          dlookup j st'.disk_blobs = some e ∧ e.2.1 = b.length ∧
          diskEntryOK b e st') ∧
      (∀ q ∈ st'.sticky_blobs, ∀ j e, dlookup j st.disk_blobs = none →
        dlookup j st'.disk_blobs = some e → q.2.length ≤ e.2.1) := by
  obtain ⟨st', h1, h2, _, _, h5, h6⟩ :=
    store_blob_flush_spec hnd hfresh hmem hfb hcond htrig
  exact ⟨st', h1, h2, h5, h6⟩


theorem zeros_length (n : Nat) : (zeros n).length = n :=
  List.length_replicate n 0

/-- Witness for C1 at a single 300 MiB + 1 byte blob stored into a fresh
cache manager with no hints. -/
theorem flush_largest_first_witness :
    ((dkeys (initState []).sticky_blobs).Nodup ∧
      dlookup 1 (initState []).sticky_blobs = none ∧
      (initState []).sticky_memory_bytes = sumSizes (initState []).sticky_blobs ∧
      filesBound (initState []) ∧
      ((initState []).blob_ref_counts = [] ∨
        (dlookup 1 (initState []).blob_ref_counts).isSome) ∧
      (initState []).sticky_memory_bytes + ((zeros 314572801).length : Int) >
        sticky_cache_size) ∧
    ∃ st' : CMState,
      store_blob 1 (zeros 314572801) (initState []) = .ok st' ∧
      st'.sticky_memory_bytes ≤ sticky_flushed_size := by
  have h1 : (dkeys (initState []).sticky_blobs).Nodup := by decide
  have h2 : dlookup 1 (initState []).sticky_blobs = none := rfl
  have h3 : (initState []).sticky_memory_bytes =
      sumSizes (initState []).sticky_blobs := by decide
  have h4 : filesBound (initState []) := by
    intro p hp
    simp [initState] at hp
  have h5 : (initState []).blob_ref_counts = [] ∨
      (dlookup 1 (initState []).blob_ref_counts).isSome := Or.inl rfl
  have h6 : (initState []).sticky_memory_bytes + ((zeros 314572801).length : Int) >
      sticky_cache_size := by
    rw [zeros_length]
    norm_num [initState, sticky_cache_size]
  obtain ⟨st', hrun, hlow, _, _⟩ := flush_largest_first h1 h2 h3 h4 h5 h6
  exact ⟨⟨h1, h2, h3, h4, h5, h6⟩, st', hrun, hlow⟩

theorem except_bind_ok {ε α β : Type} (a : α) (f : α → Except ε β) :
    (Except.ok a : Except ε α).bind f = f a := rfl

theorem except_map_ok {ε α β : Type} (f : α → β) (a : α) :
    Except.map f (Except.ok a : Except ε α) = .ok (f a) := rfl

/-- C1 counterexample: with no hints, storing a 250 MiB + 1 byte blob (id 1)
and then a 60 MiB blob (id 2) exceeds the high-water mark; the code evicts
the *largest* blob (id 1) and stops — id 2 stays in memory and never reaches
disk — while the claimed smallest-first pass would evict id 2 (first), as
the claim-modelled variant shows. -/
theorem flush_smallest_first_counterexample :
    ((store_blob 1 (zeros 262144001) (initState [])).bind
        (store_blob 2 (zeros 62914560))).map
        (fun st => (dlookup 2 st.sticky_blobs, dlookup 2 st.disk_blobs)) =
      .ok (some (zeros 62914560), none) ∧
    ((store_blob_claim 1 (zeros 262144001) (initState [])).bind
        (store_blob_claim 2 (zeros 62914560))).map
        (fun st => (dlookup 2 st.sticky_blobs, (dlookup 2 st.disk_blobs).isSome)) =
      .ok (none, true) := by
  have h1 : store_blob 1 (zeros 262144001) (initState []) = .ok
      ⟨[], [(1, zeros 262144001)], 262144001, [], [], false, [], [], 0⟩ := by
    simp [store_blob, initState, dinsert, zeros_length, sticky_cache_size]
  have h1c : store_blob_claim 1 (zeros 262144001) (initState []) = .ok
      ⟨[], [(1, zeros 262144001)], 262144001, [], [], false, [], [], 0⟩ := by
    simp [store_blob_claim, initState, dinsert, zeros_length, sticky_cache_size]
  have h2 : store_blob 2 (zeros 62914560)
      ⟨[], [(1, zeros 262144001)], 262144001, [], [], false, [], [], 0⟩ = .ok
      ⟨[], [(2, zeros 62914560)], 62914560, [(1, (0, 262144001, some 0))], [],
        true, [], [(0, zeros 262144001)], 1⟩ := by
    have e1 : store_blob 2 (zeros 62914560)
        ⟨[], [(1, zeros 262144001)], 262144001, [], [], false, [], [], 0⟩ =
        flush_blobs_to_disk
          ⟨[], [(1, zeros 262144001), (2, zeros 62914560)], 325058561, [], [],
            false, [], [], 0⟩ := by
      simp [store_blob, dinsert, zeros_length, sticky_cache_size]
    have e2 : flush_blobs_to_disk
        ⟨[], [(1, zeros 262144001), (2, zeros 62914560)], 325058561, [], [],
          false, [], [], 0⟩ =
        flushLoop [(1, zeros 262144001), (2, zeros 62914560)]
          ⟨[], [(1, zeros 262144001), (2, zeros 62914560)], 325058561, [], [],
            true, [], [], 0⟩ := by
      rw [flush_blobs_to_disk]
      simp [sortBySize, insertBySize, zeros_length]
    have e3 : flushLoop [(1, zeros 262144001), (2, zeros 62914560)]
        ⟨[], [(1, zeros 262144001), (2, zeros 62914560)], 325058561, [], [],
          true, [], [], 0⟩ =
        flushLoop [(2, zeros 62914560)]
          ⟨[], [(2, zeros 62914560)], 62914560, [(1, (0, 262144001, some 0))],
            [], true, [], [(0, zeros 262144001)], 1⟩ := by
      conv_lhs => rw [flushLoop]
      rw [if_pos (by norm_num [sticky_flushed_size])]
      simp [evictOne, zeros_length, derase, dinsert, small_blob_threshold]
    have e4 : flushLoop [(2, zeros 62914560)]
        ⟨[], [(2, zeros 62914560)], 62914560, [(1, (0, 262144001, some 0))],
          [], true, [], [(0, zeros 262144001)], 1⟩ =
        .ok ⟨[], [(2, zeros 62914560)], 62914560, [(1, (0, 262144001, some 0))],
          [], true, [], [(0, zeros 262144001)], 1⟩ := by
      conv_lhs => rw [flushLoop]
      rw [if_neg (by norm_num [sticky_flushed_size])]
    rw [e1, e2, e3, e4]
  have h2c : store_blob_claim 2 (zeros 62914560)
      ⟨[], [(1, zeros 262144001)], 262144001, [], [], false, [], [], 0⟩ = .ok
      ⟨[], [], 0, [(2, (0, 62914560, some 0)), (1, (0, 262144001, some 1))], [],
        true, [], [(0, zeros 62914560), (1, zeros 262144001)], 2⟩ := by
    have e1 : store_blob_claim 2 (zeros 62914560)
        ⟨[], [(1, zeros 262144001)], 262144001, [], [], false, [], [], 0⟩ =
        flush_smallest_first
          ⟨[], [(1, zeros 262144001), (2, zeros 62914560)], 325058561, [], [],
            false, [], [], 0⟩ := by
      simp [store_blob_claim, dinsert, zeros_length, sticky_cache_size]
    have e2 : flush_smallest_first
        ⟨[], [(1, zeros 262144001), (2, zeros 62914560)], 325058561, [], [],
          false, [], [], 0⟩ =
        flushLoopClaim [(2, zeros 62914560), (1, zeros 262144001)]
          ⟨[], [(1, zeros 262144001), (2, zeros 62914560)], 325058561, [], [],
            true, [], [], 0⟩ := by
      rw [flush_smallest_first]
      simp [sortBySize, insertBySize, zeros_length]
    have e3 : flushLoopClaim [(2, zeros 62914560), (1, zeros 262144001)]
        ⟨[], [(1, zeros 262144001), (2, zeros 62914560)], 325058561, [], [],
          true, [], [], 0⟩ =
        flushLoopClaim [(1, zeros 262144001)]
          ⟨[], [(1, zeros 262144001)], 262144001, [(2, (0, 62914560, some 0))],
            [], true, [], [(0, zeros 62914560)], 1⟩ := by
      conv_lhs => rw [flushLoopClaim]
      rw [if_pos (by norm_num [sticky_flushed_size])]
      simp [evictOne, zeros_length, derase, dinsert, small_blob_threshold]
    have e4 : flushLoopClaim [(1, zeros 262144001)]
        ⟨[], [(1, zeros 262144001)], 262144001, [(2, (0, 62914560, some 0))],
          [], true, [], [(0, zeros 62914560)], 1⟩ =
        flushLoopClaim []
          ⟨[], [], 0, [(2, (0, 62914560, some 0)), (1, (0, 262144001, some 1))],
            [], true, [], [(0, zeros 62914560), (1, zeros 262144001)], 2⟩ := by
      conv_lhs => rw [flushLoopClaim]
      rw [if_pos (by norm_num [sticky_flushed_size])]
      simp [evictOne, zeros_length, derase, dinsert, small_blob_threshold]
    have e5 : flushLoopClaim []
        ⟨[], [], 0, [(2, (0, 62914560, some 0)), (1, (0, 262144001, some 1))],
          [], true, [], [(0, zeros 62914560), (1, zeros 262144001)], 2⟩ =
        .ok ⟨[], [], 0,
          [(2, (0, 62914560, some 0)), (1, (0, 262144001, some 1))],
          [], true, [], [(0, zeros 62914560), (1, zeros 262144001)], 2⟩ := by
      conv_lhs => rw [flushLoopClaim]
      rw [if_neg (by norm_num [sticky_flushed_size])]
    rw [e1, e2, e3, e4, e5]
  constructor
  · rw [h1, except_bind_ok, h2, except_map_ok]
    simp [dlookup]
  · rw [h1c, except_bind_ok, h2c, except_map_ok]
    simp [dlookup]

/-- C8: a blob stored sticky and moved to disk by the flush pass a store
triggers (by exceeding the high-water mark) is fetched back byte-identical,
whether it landed in the shared small-blob file (read back through its
recorded offset and length) or in its own temporary file. -/
theorem tier_transparency
    {st : CMState} {i : Nat} {data : Data}
    (hnd : (dkeys st.sticky_blobs).Nodup)
    (hfresh : idFresh i st)
    (hmem : st.sticky_memory_bytes = sumSizes st.sticky_blobs)
    (hfb : filesBound st)
    (hcond : st.blob_ref_counts = [] ∨ (dlookup i st.blob_ref_counts).isSome)
    (htrig : st.sticky_memory_bytes + (data.length : Int) > sticky_cache_size) :
    ∃ st' : CMState, store_blob i data st = .ok st' ∧
      ∀ e, dlookup i st'.disk_blobs = some e →
        ∃ st'' : CMState, fetch_blob i st' = .ok (data, st'') := by
  obtain ⟨hb, hs, hd⟩ := hfresh
  obtain ⟨st', hrun, _, hblobs, _, hchanged, _⟩ :=
    store_blob_flush_spec hnd hs hmem hfb hcond htrig
  refine ⟨st', hrun, ?_⟩
  intro e he
  have hne : dlookup i st'.disk_blobs ≠ dlookup i st.disk_blobs := by
    rw [he, hd]; simp
  obtain ⟨b, e2, hblk, he2, hlen, hok⟩ := hchanged i hne
  have hbdata : b = data := by
    rw [dlookup_dinsert_self] at hblk
    exact (Option.some.inj hblk).symm
  subst hbdata
  have hee : e2 = e := by
    rw [he] at he2
    exact (Option.some.inj he2).symm
  subst hee
  have hb' : dlookup i st'.blobs = none := by rw [hblobs]; exact hb
  rcases hok with ⟨hsm, off, heq, hslice⟩ | ⟨hge, f, heq, hfile⟩
  · subst heq
    refine ⟨(decref i Tier.disk none st').2, ?_⟩
    simp only [fetch_blob, hb', he, diskFetchContent]
    rw [hslice]
  · subst heq
    refine ⟨(decref i Tier.disk (some f) st').2, ?_⟩
    simp only [fetch_blob, hb', he, diskFetchContent, hfile]

/-- Witness for C8 at a single 300 MiB + 1 byte blob stored into a fresh
cache manager: the blob lands in its own file and fetches back intact. -/
theorem tier_transparency_witness :
    ((dkeys (initState []).sticky_blobs).Nodup ∧
      idFresh 1 (initState []) ∧
      (initState []).sticky_memory_bytes = sumSizes (initState []).sticky_blobs ∧
      filesBound (initState []) ∧
      ((initState []).blob_ref_counts = [] ∨
        (dlookup 1 (initState []).blob_ref_counts).isSome) ∧
      (initState []).sticky_memory_bytes + ((zeros 314572801).length : Int) >
        sticky_cache_size) ∧
    ∃ st' : CMState,
      store_blob 1 (zeros 314572801) (initState []) = .ok st' ∧
      ∀ e, dlookup 1 st'.disk_blobs = some e →
        ∃ st'' : CMState, fetch_blob 1 st' = .ok (zeros 314572801, st'') := by
  have h1 : (dkeys (initState []).sticky_blobs).Nodup := by decide
  have h2 : idFresh 1 (initState []) := by decide
  have h3 : (initState []).sticky_memory_bytes =
      sumSizes (initState []).sticky_blobs := by decide
  have h4 : filesBound (initState []) := by
    intro p hp
    simp [initState] at hp
  have h5 : (initState []).blob_ref_counts = [] ∨
      (dlookup 1 (initState []).blob_ref_counts).isSome := Or.inl rfl
  have h6 : (initState []).sticky_memory_bytes + ((zeros 314572801).length : Int) >
      sticky_cache_size := by
    rw [zeros_length]
    norm_num [initState, sticky_cache_size]
  exact ⟨⟨h1, h2, h3, h4, h5, h6⟩, tier_transparency h1 h2 h3 h4 h5 h6⟩

/-! ## Tier-exclusivity invariant (C7) -/

theorem derase_eq_self_of_not_mem {κ α : Type} [DecidableEq κ] {k : κ}
    {d : List (κ × α)} (h : k ∉ dkeys d) : derase k d = d := by
  induction d with
  | nil => rfl
  | cons p rest ih =>
    simp only [dkeys, List.map_cons, List.mem_cons, not_or] at h
    have hp : p.1 ≠ k := fun hh => h.1 hh.symm
    simp only [derase, if_neg hp]
    rw [ih (by simpa [dkeys] using h.2)]

theorem sumSizes_derase {d : List (Nat × Data)} {i : Nat} {content : Data}
    (hnd : (dkeys d).Nodup) (hl : dlookup i d = some content) :
    sumSizes (derase i d) = sumSizes d - (content.length : Int) := by
  induction d with
  | nil => simp [dlookup] at hl
  | cons p rest ih =>
    have hnd0 : (p.1 :: dkeys rest).Nodup := by simpa [dkeys] using hnd
    obtain ⟨h1, h2⟩ := List.nodup_cons.mp hnd0
    by_cases hp : p.1 = i
    · have hpc : p.2 = content := by
        simp only [dlookup, if_pos hp] at hl
        exact Option.some.inj hl
      have hnr : i ∉ dkeys rest := hp ▸ h1
      simp only [derase, if_pos hp, derase_eq_self_of_not_mem hnr]
      rw [← hpc]
      rcases p with ⟨pk, pv⟩
      rw [sumSizes_cons]
      ring
    · simp only [dlookup, if_neg hp] at hl
      simp only [derase, if_neg hp]
      rcases p with ⟨pk, pv⟩
      rw [sumSizes_cons, sumSizes_cons, ih h2 hl]
      ring

theorem sumSizes_append_single (d : List (Nat × Data)) (i : Nat) (b : Data) :
    sumSizes (d ++ [(i, b)]) = sumSizes d + (b.length : Int) :=
  (sumSizes_perm (List.perm_append_singleton (i, b) d)).trans
    (by rw [sumSizes_cons]; ring)

theorem CMInv_initState (rc : List (Nat × Int)) : CMInv (initState rc) := by
  refine ⟨List.nodup_nil, List.nodup_nil, List.nodup_nil, rfl, ?_, ?_, ?_, ?_⟩ <;>
    intro p hp <;> simp [initState, dkeys] at hp

theorem flush_preserves_inv {st : CMState} (h : CMInv st) :
    ∃ st' : CMState, flush_blobs_to_disk st = .ok st' ∧ CMInv st' ∧
      st'.blobs = st.blobs ∧ st'.blob_ref_counts = st.blob_ref_counts := by
  obtain ⟨hbn, hsn, hdn, hmem, hbs, hbd, hsd, hfb⟩ := h
  set st2 : CMState :=
    if st.tempdir then st else { st with tempdir := true, small_file := [] }
    with hst2
  have hp_sticky : st2.sticky_blobs = st.sticky_blobs := by rw [hst2]; split <;> rfl
  have hp_mem : st2.sticky_memory_bytes = st.sticky_memory_bytes := by
    rw [hst2]; split <;> rfl
  have hp_blobs : st2.blobs = st.blobs := by rw [hst2]; split <;> rfl
  have hp_rc : st2.blob_ref_counts = st.blob_ref_counts := by
    rw [hst2]; split <;> rfl
  have hp_disk : st2.disk_blobs = st.disk_blobs := by rw [hst2]; split <;> rfl
  have hp_files : st2.files = st.files := by rw [hst2]; split <;> rfl
  have hp_next : st2.next_fname = st.next_fname := by rw [hst2]; split <;> rfl
  set l := (sortBySize st.sticky_blobs).reverse with hl
  have hlperm : l.Perm st.sticky_blobs :=
    (List.reverse_perm _).trans (sortBySize_perm _)
  have hlnd : (dkeys l).Nodup := (hlperm.map Prod.fst).symm.nodup hsn
  obtain ⟨k, st', hrunloop, hk, hperm', hmem', hlow', hblobs', hrc', htd',
      hsf, hfiles', hfb', hdiskother', hdisknew', hdn'⟩ :=
    flushLoop_master l st2 hlnd (hp_sticky ▸ hlperm.symm)
      (by rw [hp_mem, hmem]; exact (sumSizes_perm hlperm).symm)
      (by intro p hp; rw [hp_files] at hp; rw [hp_next]; exact hfb p hp)
  have hrun : flush_blobs_to_disk st = .ok st' := by
    rw [flush_blobs_to_disk, ← hst2, ← hl, hrunloop]
  -- key-set facts
  have hsticky'_sub : ∀ x, x ∈ dkeys st'.sticky_blobs → x ∈ dkeys st.sticky_blobs := by
    intro x hx
    obtain ⟨q, hq, hq1⟩ := List.mem_map.mp hx
    have hq' : q ∈ l.drop k := hperm'.mem_iff.mp hq
    have : q ∈ l := List.drop_subset k l hq'
    exact hq1 ▸ List.mem_map_of_mem Prod.fst (hlperm.mem_iff.mp this)
  have hdisk'_sub : ∀ x, x ∈ dkeys st'.disk_blobs →
      x ∈ dkeys st.disk_blobs ∨ x ∈ dkeys st.sticky_blobs := by
    intro x hx
    by_cases hxt : x ∈ dkeys (l.take k)
    · right
      obtain ⟨q, hq, hq1⟩ :=
        List.mem_map.mp (hxt : x ∈ List.map Prod.fst (l.take k))
      have : q ∈ l := List.take_subset k l hq
      exact hq1 ▸ List.mem_map_of_mem Prod.fst (hlperm.mem_iff.mp this)
    · left
      rw [← dlookup_isSome_iff_mem_dkeys] at hx ⊢
      rw [hdiskother' x hxt, hp_disk] at hx
      exact hx
  have hstickydisk_distinct : ∀ x, x ∈ dkeys st'.sticky_blobs →
      x ∈ dkeys st'.disk_blobs → False := by
    intro x hx hx'
    by_cases hxt : x ∈ dkeys (l.take k)
    · -- x is among the evicted keys and among the survivors: contradicts Nodup
      obtain ⟨q, hq, hq1⟩ := List.mem_map.mp hx
      have hqdrop : q ∈ l.drop k := hperm'.mem_iff.mp hq
      have hxdrop : x ∈ dkeys (l.drop k) :=
        hq1 ▸ List.mem_map_of_mem Prod.fst hqdrop
      have : (dkeys (l.take k) ++ dkeys (l.drop k)).Nodup := by
        have : dkeys (l.take k) ++ dkeys (l.drop k) = dkeys l := by
          simp [dkeys, ← List.map_append]
        rw [this]
        exact hlnd
      exact (List.nodup_append.mp this).2.2 hxt hxdrop
    · rw [← dlookup_isSome_iff_mem_dkeys, hdiskother' x hxt, hp_disk,
        dlookup_isSome_iff_mem_dkeys] at hx'
      exact hsd x (hsticky'_sub x hx) hx'
  refine ⟨st', hrun, ⟨?_, ?_, ?_, hmem'.trans (sumSizes_perm hperm').symm,
      ?_, ?_, ?_, hfb'⟩,
    by rw [hblobs', hp_blobs], by rw [hrc', hp_rc]⟩
  · rw [hblobs', hp_blobs]; exact hbn
  · have : dkeys (l.drop k) = (dkeys l).drop k := by simp [dkeys, List.map_drop]
    have hdropnd : (dkeys (l.drop k)).Nodup := by
      rw [this]
      exact (List.drop_sublist k (dkeys l)).nodup hlnd
    exact ((hperm'.map Prod.fst).symm.nodup hdropnd)
  · exact hdn' (by rw [hp_disk]; exact hdn)
  · intro x hx
    rw [hblobs', hp_blobs] at hx
    intro hc
    exact hbs x hx (hsticky'_sub x hc)
  · intro x hx
    rw [hblobs', hp_blobs] at hx
    intro hc
    rcases hdisk'_sub x hc with hc' | hc'
    · exact hbd x hx hc'
    · exact hbs x hx hc'
  · intro x hx hc
    exact hstickydisk_distinct x hx hc

theorem mem_dkeys_dinsert {κ α : Type} [DecidableEq κ] {x k : κ} {v : α}
    {d : List (κ × α)} (h : x ∈ dkeys (dinsert k v d)) : x = k ∨ x ∈ dkeys d := by
  obtain ⟨q, hq, hq1⟩ := List.mem_map.mp h
  rcases mem_dinsert hq with h' | h'
  · left; rw [← hq1, h']
  · right; exact hq1 ▸ List.mem_map_of_mem Prod.fst h'

theorem store_preserves_inv {st st' : CMState} {i : Nat} {d : Data}
    (h : CMInv st) (hfr : idFresh i st)
    (hstep : store_blob i d st = .ok st') : CMInv st' := by
  obtain ⟨hbn, hsn, hdn, hmem, hbs, hbd, hsd, hfb⟩ := h
  obtain ⟨hfrb, hfrs, hfrd⟩ := hfr
  have hnmem_s : i ∉ dkeys st.sticky_blobs := by
    rw [← dlookup_isSome_iff_mem_dkeys, hfrs]; simp
  have hnmem_b : i ∉ dkeys st.blobs := by
    rw [← dlookup_isSome_iff_mem_dkeys, hfrb]; simp
  have hnmem_d : i ∉ dkeys st.disk_blobs := by
    rw [← dlookup_isSome_iff_mem_dkeys, hfrd]; simp
  unfold store_blob at hstep
  by_cases hcond : st.blob_ref_counts = [] ∨ (dlookup i st.blob_ref_counts).isSome
  · rw [if_pos hcond] at hstep
    have hstm_inv : CMInv
        { st with sticky_blobs := dinsert i d st.sticky_blobs
                  sticky_memory_bytes :=
                    st.sticky_memory_bytes + (d.length : Int) } := by
      refine ⟨hbn, dkeys_dinsert_nodup i d hsn, hdn, ?_, ?_, hbd, ?_, hfb⟩
      · show st.sticky_memory_bytes + (d.length : Int) =
          sumSizes (dinsert i d st.sticky_blobs)
        rw [dinsert_eq_append d hnmem_s, sumSizes_append_single, hmem]
      · intro x hx hc
        rcases mem_dkeys_dinsert hc with h' | h'
        · exact hnmem_b (h' ▸ hx)
        · exact hbs x hx h'
      · intro x hx
        rcases mem_dkeys_dinsert hx with h' | h'
        · exact h' ▸ hnmem_d
        · exact hsd x h'
    by_cases htrig :
        st.sticky_memory_bytes + (d.length : Int) > sticky_cache_size
    · rw [if_pos htrig] at hstep
      obtain ⟨st'', heq, hinv, _, _⟩ := flush_preserves_inv hstm_inv
      rw [heq] at hstep
      cases hstep
      exact hinv
    · rw [if_neg htrig] at hstep
      cases hstep
      exact hstm_inv
  · rw [if_neg hcond] at hstep
    by_cases hd0 : d = []
    · rw [if_pos hd0] at hstep
      cases hstep
      subst hd0
      refine ⟨hbn, dkeys_dinsert_nodup i [] hsn, hdn, ?_, ?_, hbd, ?_, hfb⟩
      · show st.sticky_memory_bytes = sumSizes (dinsert i [] st.sticky_blobs)
        rw [dinsert_eq_append [] hnmem_s, sumSizes_append_single, hmem]
        simp
      · intro x hx hc
        rcases mem_dkeys_dinsert hc with h' | h'
        · exact hnmem_b (h' ▸ hx)
        · exact hbs x hx h'
      · intro x hx
        rcases mem_dkeys_dinsert hx with h' | h'
        · exact h' ▸ hnmem_d
        · exact hsd x h'
    · rw [if_neg hd0] at hstep
      cases hstep
      refine ⟨dkeys_dinsert_nodup i d hbn, hsn, hdn, hmem, ?_, ?_, hsd, hfb⟩
      · intro x hx
        rcases mem_dkeys_dinsert hx with h' | h'
        · exact h' ▸ hnmem_s
        · exact hbs x h'
      · intro x hx
        rcases mem_dkeys_dinsert hx with h' | h'
        · exact h' ▸ hnmem_d
        · exact hbd x h'

theorem decref_cases (i : Nat) (tier : Tier) (fn : Option Nat) (st : CMState) :
    decref i tier fn st = (false, st) ∨
    (∃ c : Int, dlookup i st.blob_ref_counts = some c ∧ ¬(c - 1 ≤ 0) ∧
      decref i tier fn st =
        (false,
          { st with blob_ref_counts :=
              dinsert i (c - 1) st.blob_ref_counts })) ∨
    (∃ c : Int, dlookup i st.blob_ref_counts = some c ∧ c - 1 ≤ 0 ∧
      decref i tier fn st =
        (true,
          { st with
              sticky_blobs :=
                match tier with
                | Tier.sticky => derase i st.sticky_blobs
                | Tier.disk => st.sticky_blobs
              disk_blobs :=
                match tier with
                | Tier.sticky => st.disk_blobs
                | Tier.disk => derase i st.disk_blobs
              files :=
                match fn with
                | none => st.files
                | some f => derase f st.files
              blob_ref_counts := derase i st.blob_ref_counts })) := by
  by_cases hrc : st.blob_ref_counts = []
  · left; simp [decref, hrc]
  · cases hl : dlookup i st.blob_ref_counts with
    | none => left; simp [decref, hrc, hl]
    | some c =>
      by_cases hc : c - 1 ≤ 0
      · right; right
        refine ⟨c, rfl, hc, ?_⟩
        cases tier <;> cases fn <;> simp [decref, hrc, hl, hc]
      · right; left
        refine ⟨c, rfl, hc, ?_⟩
        simp [decref, hrc, hl, hc]

theorem fetch_preserves_inv {st st' : CMState} {i : Nat} {d : Data}
    (h : CMInv st) (hstep : fetch_blob i st = .ok (d, st')) : CMInv st' := by
  obtain ⟨hbn, hsn, hdn, hmem, hbs, hbd, hsd, hfb⟩ := h
  cases hblobs : dlookup i st.blobs with
  | some content =>
    simp only [fetch_blob, hblobs, Except.ok.injEq, Prod.mk.injEq] at hstep
    obtain ⟨hd1, hst1⟩ := hstep
    subst hst1
    refine ⟨(dkeys_derase_sublist i st.blobs).nodup hbn, hsn, hdn, hmem,
      ?_, ?_, hsd, hfb⟩
    · intro x hx
      exact hbs x ((dkeys_derase_sublist i st.blobs).subset hx)
    · intro x hx
      exact hbd x ((dkeys_derase_sublist i st.blobs).subset hx)
  | none =>
    cases hdisk : dlookup i st.disk_blobs with
    | some e =>
      obtain ⟨off, n, fn⟩ := e
      cases fn with
      | none =>
        simp only [fetch_blob, hblobs, hdisk, diskFetchContent,
          Except.ok.injEq, Prod.mk.injEq] at hstep
        obtain ⟨hd1, hst1⟩ := hstep
        subst hst1
        rcases decref_cases i Tier.disk none st with hdec | ⟨c, hl, hc, hdec⟩ |
            ⟨c, hl, hc, hdec⟩ <;> rw [hdec]
        · exact ⟨hbn, hsn, hdn, hmem, hbs, hbd, hsd, hfb⟩
        · exact ⟨hbn, hsn, hdn, hmem, hbs, hbd, hsd, hfb⟩
        · refine ⟨hbn, hsn, (dkeys_derase_sublist i st.disk_blobs).nodup hdn,
            hmem, hbs, ?_, ?_, hfb⟩
          · intro x hx hc2
            exact hbd x hx ((dkeys_derase_sublist i st.disk_blobs).subset hc2)
          · intro x hx hc2
            exact hsd x hx ((dkeys_derase_sublist i st.disk_blobs).subset hc2)
      | some f =>
        cases hfl : dlookup f st.files with
        | none =>
          simp only [fetch_blob, hblobs, hdisk, diskFetchContent, hfl] at hstep
          exact Except.noConfusion hstep
        | some content =>
          simp only [fetch_blob, hblobs, hdisk, diskFetchContent, hfl,
            Except.ok.injEq, Prod.mk.injEq] at hstep
          obtain ⟨hd1, hst1⟩ := hstep
          subst hst1
          rcases decref_cases i Tier.disk (some f) st with hdec |
              ⟨c, hl, hc, hdec⟩ | ⟨c, hl, hc, hdec⟩ <;> rw [hdec]
          · exact ⟨hbn, hsn, hdn, hmem, hbs, hbd, hsd, hfb⟩
          · exact ⟨hbn, hsn, hdn, hmem, hbs, hbd, hsd, hfb⟩
          · show CMInv
                { st with disk_blobs := derase i st.disk_blobs
                          files := derase f st.files
                          blob_ref_counts := derase i st.blob_ref_counts }
            refine ⟨hbn, hsn, (dkeys_derase_sublist i st.disk_blobs).nodup hdn,
              hmem, hbs, ?_, ?_, ?_⟩
            · intro x hx hc2
              exact hbd x hx ((dkeys_derase_sublist i st.disk_blobs).subset hc2)
            · intro x hx hc2
              exact hsd x hx ((dkeys_derase_sublist i st.disk_blobs).subset hc2)
            · intro p hp
              have hp2 : p ∈ derase f st.files := hp
              rw [derase_eq_filter] at hp2
              exact hfb p (List.mem_of_mem_filter hp2)
    | none =>
      cases hsticky : dlookup i st.sticky_blobs with
      | none =>
        simp only [fetch_blob, hblobs, hdisk, hsticky] at hstep
        exact Except.noConfusion hstep
      | some content =>
        simp only [fetch_blob, hblobs, hdisk, hsticky] at hstep
        rcases decref_cases i Tier.sticky none st with hdec | ⟨c, hl, hc, hdec⟩ |
            ⟨c, hl, hc, hdec⟩ <;>
          rw [hdec] at hstep <;>
          simp only [Except.ok.injEq, Prod.mk.injEq, if_neg, if_pos,
            Bool.false_eq_true, if_false, if_true] at hstep <;>
          obtain ⟨hd1, hst1⟩ := hstep <;> subst hst1
        · exact ⟨hbn, hsn, hdn, hmem, hbs, hbd, hsd, hfb⟩
        · exact ⟨hbn, hsn, hdn, hmem, hbs, hbd, hsd, hfb⟩
        · refine ⟨hbn, (dkeys_derase_sublist i st.sticky_blobs).nodup hsn, hdn,
            ?_, ?_, hbd, ?_, hfb⟩
          · show st.sticky_memory_bytes - (content.length : Int) =
              sumSizes (derase i st.sticky_blobs)
            rw [sumSizes_derase hsn hsticky, hmem]
          · intro x hx hc2
            exact hbs x hx ((dkeys_derase_sublist i st.sticky_blobs).subset hc2)
          · intro x hx
            exact hsd x ((dkeys_derase_sublist i st.sticky_blobs).subset hx)

theorem reachFresh_inv {rc : List (Nat × Int)} {st : CMState}
    (h : ReachFresh rc st) : CMInv st := by
  induction h with
  | init => exact CMInv_initState rc
  | store hre hfr hstep ih => exact store_preserves_inv ih hfr hstep
  | fetch hre hstep ih => exact fetch_preserves_inv ih hstep
  | flush hre hstep ih =>
    obtain ⟨st'', heq, hinv, _, _⟩ := flush_preserves_inv ih
    rw [heq] at hstep
    cases hstep
    exact hinv

/-- C7 (amended): in every state reachable by store_blob, fetch_blob and
flush-to-disk operations in which each store targets an id not currently
held in any tier (the discipline a well-formed stream obeys — a mark is
only reassigned after the object is fully consumed), each blob id is present
in at most one of the three tiers.  (Re-storing a live id breaks the
invariant; see the counterexample.) -/
theorem one_tier_invariant :
    ∀ (rc : List (Nat × Int)) (st : CMState), ReachFresh rc st →
      ∀ i : Nat,
        ¬((dlookup i st.blobs).isSome ∧ (dlookup i st.sticky_blobs).isSome) ∧
        ¬((dlookup i st.blobs).isSome ∧ (dlookup i st.disk_blobs).isSome) ∧
        ¬((dlookup i st.sticky_blobs).isSome ∧ (dlookup i st.disk_blobs).isSome) := by
  intro rc st h i
  obtain ⟨_, _, _, _, hbs, hbd, hsd, _⟩ := reachFresh_inv h
  refine ⟨?_, ?_, ?_⟩
  · rintro ⟨h1, h2⟩
    exact hbs i ((dlookup_isSome_iff_mem_dkeys i st.blobs).mp h1)
      ((dlookup_isSome_iff_mem_dkeys i st.sticky_blobs).mp h2)
  · rintro ⟨h1, h2⟩
    exact hbd i ((dlookup_isSome_iff_mem_dkeys i st.blobs).mp h1)
      ((dlookup_isSome_iff_mem_dkeys i st.disk_blobs).mp h2)
  · rintro ⟨h1, h2⟩
    exact hsd i ((dlookup_isSome_iff_mem_dkeys i st.sticky_blobs).mp h1)
      ((dlookup_isSome_iff_mem_dkeys i st.disk_blobs).mp h2)

/-- Witness for C7 at the constructor state (reachable by the empty
operation sequence). -/
theorem one_tier_invariant_witness :
    ReachFresh [] (initState []) ∧
    (¬((dlookup 0 (initState []).blobs).isSome ∧
        (dlookup 0 (initState []).sticky_blobs).isSome) ∧
      ¬((dlookup 0 (initState []).blobs).isSome ∧
        (dlookup 0 (initState []).disk_blobs).isSome) ∧
      ¬((dlookup 0 (initState []).sticky_blobs).isSome ∧
        (dlookup 0 (initState []).disk_blobs).isSome)) :=
  ⟨ReachFresh.init, one_tier_invariant [] (initState []) ReachFresh.init 0⟩
